import Mathlib

/-!
Verification of the command decoding layer of zkkodb
(`src/zkkodb/src/parser.rs`).

The Rust code derives `serde::Deserialize` for a tagged `Command` union
and its payload structs, and decodes incoming JSON with `serde_json`.
This file gives a shallow embedding of that decoder.  JSON input trees
are modelled by `Json`; objects keep their textual field order as a
list of key/value pairs, so duplicate keys are visible exactly as the
serde deserializer sees them through its buffered content values, and
numeric literals are modelled exactly as rationals.

Each decoding function mirrors the serde-derived `Deserialize`
implementation of the corresponding Rust type:

* internally tagged enums (`#[serde(tag = "command")]`,
  `#[serde(tag = "type")]`) scan the object for the tag field while
  buffering the remaining entries in order, reject a repeated tag as a
  duplicate field, fail on an unrecognized tag value, and hand the
  buffered entries to the selected variant decoder;
* struct decoding walks the buffered entries in order, rejects a
  duplicate known field, ignores unknown fields (no
  `deny_unknown_fields`), and afterwards applies `#[serde(default)]`
  defaults and reports the first missing required field in field
  declaration order;
* `HashMap<String, _>` fields insert their entries in textual order
  with last-write-wins, exactly like the `HashMap` `Deserialize`
  instance; the maps are represented as association lists built by an
  insert-or-replace operation;
* the alternative representations serde_json accepts are modelled too:
  a tag value may be an unsigned integer selecting a variant by index
  (the derived variant identifier implements `visit_u64` and
  serde_json forwards identifiers to `deserialize_any`), an internally
  tagged enum also decodes from a JSON array whose first element is
  the tag and whose remaining elements feed the variant positionally
  (`TaggedContentVisitor::visit_seq`), and derived structs also decode
  from JSON arrays positionally, `#[serde(default)]` fields defaulting
  when the sequence is exhausted and surplus elements being an
  invalid-length error.
-/

namespace Zkkodb

/-- JSON value tree handed to the decoder: objects are ordered field
lists (duplicates preserved), numbers are exact rationals. -/
inductive Json where
  | null : Json
  | bool (b : Bool) : Json
  | num (q : ℚ) : Json
  | str (s : String) : Json
  | arr (elems : List Json) : Json
  | obj (fields : List (String × Json)) : Json

/-- The entries of a JSON object, in textual order. -/
abbrev Fields := List (String × Json)

/-- Decode-time errors, mirroring the serde_json error classes the
derived deserializers can produce. -/
inductive DecodeError where
  | notAnObject : DecodeError
  | missingField (f : String) : DecodeError
  | unknownVariant (tag value : String) : DecodeError
  | duplicateField (f : String) : DecodeError
  | typeMismatch (f : String) : DecodeError
  | invalidLength (what : String) : DecodeError
  | variantIndexOutOfRange (tag : String) (idx : Nat) : DecodeError
deriving DecidableEq, Repr

/-- `ColumnDefinition` from parser.rs: wire key of `col_type` is
`type`; `not_null` and `unique` default to `false`, `default` to
`None`. -/
structure ColumnDefinition where
  col_type : String
  not_null : Bool
  unique : Bool
  default : Option String
deriving DecidableEq, Repr

/-- `CreateCommand` from parser.rs, tagged by `type`. -/
inductive CreateCommand where
  | User (username password role : String) : CreateCommand
  | Table (table primary_key : String)
      (rows : List (String × ColumnDefinition)) : CreateCommand

/-- `ReadCommand` from parser.rs: `filter` and `limit` carry
`#[serde(default)]`. -/
structure ReadCommand where
  table : String
  filter : List (String × Json)
  limit : Option Nat

/-- `UpdateCommand` from parser.rs, tagged by `type`. -/
inductive UpdateCommand where
  | Rows (table : String)
      (add : List (String × ColumnDefinition)) : UpdateCommand
  | Content (table filter : String)
      (rows : List (String × Json)) : UpdateCommand

/-- `InsertCommand` from parser.rs. -/
structure InsertCommand where
  table : String
  rows : List (String × Json)

/-- `DeleteCommand` from parser.rs, tagged by `type`. -/
inductive DeleteCommand where
  | Table (table : String) : DeleteCommand
  | Content (table filter : String) : DeleteCommand

/-- `Command` from parser.rs, tagged by `command`; the commented-out
`Unknown` variant is absent, so there is no catch-all. -/
inductive Command where
  | Create (c : CreateCommand) : Command
  | Read (c : ReadCommand) : Command
  | Update (c : UpdateCommand) : Command
  | Insert (c : InsertCommand) : Command
  | Delete (c : DeleteCommand) : Command

/-- `HashMap` insert: replace the value at an existing key, otherwise
append the new entry. -/
def insertAssoc {α : Type} (k : String) (v : α) :
    List (String × α) → List (String × α)
  | [] => [(k, v)]
  | (k₀, v₀) :: rest =>
      if k₀ = k then (k, v) :: rest else (k₀, v₀) :: insertAssoc k v rest

/-- Deserialize a `HashMap`: insert the object entries in textual
order, later duplicates overwriting earlier ones. -/
def buildMap : Fields → List (String × Json) → List (String × Json)
  | [], acc => acc
  | (k, v) :: rest, acc => buildMap rest (insertAssoc k v acc)

/-- Deserialize a `HashMap<String, serde_json::Value>` field value. -/
def decodeValueMap (field : String) : Json →
    Except DecodeError (List (String × Json))
  | .obj entries => .ok (buildMap entries [])
  | _ => .error (.typeMismatch field)

/-- Deserialize an `Option<String>` value: `null` is `None`. -/
def decodeOptString (field : String) : Json →
    Except DecodeError (Option String)
  | .null => .ok none
  | .str s => .ok (some s)
  | _ => .error (.typeMismatch field)

/-- Resolve a tag value through the derived variant identifier: a
string is matched against the variant names, an unsigned integer
within 64 bits selects a variant by declaration index (serde_json
forwards `deserialize_identifier` to `deserialize_any`, and the
derived visitor implements `visit_u64`), anything else is an invalid
type. -/
def variantOfTag (tag : String) (variants : List String) : Json →
    Except DecodeError String
  | .str s => if s ∈ variants then .ok s else .error (.unknownVariant tag s)
  | .num q =>
    if q.den = 1 ∧ 0 ≤ q.num ∧ q.num < (2 : ℤ) ^ 64 then
      match variants.get? q.num.toNat with
      | some t => .ok t
      | none => .error (.variantIndexOutOfRange tag q.num.toNat)
    else .error (.typeMismatch tag)
  | _ => .error (.typeMismatch tag)

/-- Finalization of `ColumnDefinition`: `type` is required, the other
fields take their serde defaults. -/
def mkColumnDef (ct : Option String) (nn uq : Option Bool)
    (df : Option (Option String)) : Except DecodeError ColumnDefinition :=
  match ct with
  | none => .error (.missingField "type")
  | some t => .ok ⟨t, nn.getD false, uq.getD false, df.getD none⟩

/-- Field loop of the derived `ColumnDefinition` deserializer. -/
def decodeColumnFields : Fields → Option String → Option Bool →
    Option Bool → Option (Option String) → Except DecodeError ColumnDefinition
  | [], ct, nn, uq, df => mkColumnDef ct nn uq df
  | (k, v) :: rest, ct, nn, uq, df =>
    if k = "type" then
      match ct with
      | some _ => .error (.duplicateField "type")
      | none =>
        match v with
        | .str s => decodeColumnFields rest (some s) nn uq df
        | _ => .error (.typeMismatch "type")
    else if k = "not_null" then
      match nn with
      | some _ => .error (.duplicateField "not_null")
      | none =>
        match v with
        | .bool b => decodeColumnFields rest ct (some b) uq df
        | _ => .error (.typeMismatch "not_null")
    else if k = "unique" then
      match uq with
      | some _ => .error (.duplicateField "unique")
      | none =>
        match v with
        | .bool b => decodeColumnFields rest ct nn (some b) df
        | _ => .error (.typeMismatch "unique")
    else if k = "default" then
      match df with
      | some _ => .error (.duplicateField "default")
      | none =>
        match v with
        | .str s => decodeColumnFields rest ct nn uq (some (some s))
        | .null => decodeColumnFields rest ct nn uq (some none)
        | _ => .error (.typeMismatch "default")
    else decodeColumnFields rest ct nn uq df

/-- Positional (struct-from-sequence) deserialization of
`ColumnDefinition`: element order is `col_type`, `not_null`, `unique`,
`default`; the required first element missing is an invalid length,
the defaulted fields default when the sequence is exhausted, surplus
elements are an invalid length. -/
def decodeColumnSeq : List Json → Except DecodeError ColumnDefinition
  | [] => .error (.invalidLength "ColumnDefinition")
  | e₀ :: rest₀ =>
    match e₀ with
    | .str ct =>
      match rest₀ with
      | [] => .ok ⟨ct, false, false, none⟩
      | e₁ :: rest₁ =>
        match e₁ with
        | .bool nn =>
          match rest₁ with
          | [] => .ok ⟨ct, nn, false, none⟩
          | e₂ :: rest₂ =>
            match e₂ with
            | .bool uq =>
              match rest₂ with
              | [] => .ok ⟨ct, nn, uq, none⟩
              | e₃ :: rest₃ =>
                match decodeOptString "default" e₃ with
                | .error e => .error e
                | .ok df =>
                  match rest₃ with
                  | [] => .ok ⟨ct, nn, uq, df⟩
                  | _ => .error (.invalidLength "ColumnDefinition")
            | _ => .error (.typeMismatch "unique")
        | _ => .error (.typeMismatch "not_null")
    | _ => .error (.typeMismatch "type")

/-- Deserialize one `ColumnDefinition` value: an object decodes by
field name, an array positionally (derived structs accept both);
anything else is an invalid type. -/
def decodeColumnDef : Json → Except DecodeError ColumnDefinition
  | .obj entries => decodeColumnFields entries none none none none
  | .arr elems => decodeColumnSeq elems
  | _ => .error (.typeMismatch "ColumnDefinition")

/-- Deserialize a `HashMap<String, ColumnDefinition>` from object
entries: each value is decoded recursively, any failure aborts the
whole map, duplicate keys are overwritten last-write-wins. -/
def decodeColumnMap : Fields → List (String × ColumnDefinition) →
    Except DecodeError (List (String × ColumnDefinition))
  | [], acc => .ok acc
  | (k, v) :: rest, acc =>
    match decodeColumnDef v with
    | .error e => .error e
    | .ok cd => decodeColumnMap rest (insertAssoc k cd acc)

/-- Deserialize `Option<usize>` for `limit`: `null` is `None`, a
non-negative integral number fitting 64 bits is `Some`, anything else
is an error. -/
def decodeLimit : Json → Except DecodeError (Option Nat)
  | .null => .ok none
  | .num q =>
    if q.den = 1 ∧ 0 ≤ q.num ∧ q.num < (2 : ℤ) ^ 64 then
      .ok (some q.num.toNat)
    else .error (.typeMismatch "limit")
  | _ => .error (.typeMismatch "limit")

/-- Field loop of the derived `ReadCommand` deserializer. -/
def decodeReadFields : Fields → Option String →
    Option (List (String × Json)) → Option (Option Nat) →
    Except DecodeError ReadCommand
  | [], tb, fl, lm =>
    match tb with
    | none => .error (.missingField "table")
    | some table => .ok ⟨table, fl.getD [], lm.getD none⟩
  | (k, v) :: rest, tb, fl, lm =>
    if k = "table" then
      match tb with
      | some _ => .error (.duplicateField "table")
      | none =>
        match v with
        | .str s => decodeReadFields rest (some s) fl lm
        | _ => .error (.typeMismatch "table")
    else if k = "filter" then
      match fl with
      | some _ => .error (.duplicateField "filter")
      | none =>
        match decodeValueMap "filter" v with
        | .error e => .error e
        | .ok m => decodeReadFields rest tb (some m) lm
    else if k = "limit" then
      match lm with
      | some _ => .error (.duplicateField "limit")
      | none =>
        match decodeLimit v with
        | .error e => .error e
        | .ok n => decodeReadFields rest tb fl (some n)
    else decodeReadFields rest tb fl lm

/-- Field loop of the derived `InsertCommand` deserializer. -/
def decodeInsertFields : Fields → Option String →
    Option (List (String × Json)) → Except DecodeError InsertCommand
  | [], tb, rw =>
    match tb with
    | none => .error (.missingField "table")
    | some table =>
      match rw with
      | none => .error (.missingField "rows")
      | some rows => .ok ⟨table, rows⟩
  | (k, v) :: rest, tb, rw =>
    if k = "table" then
      match tb with
      | some _ => .error (.duplicateField "table")
      | none =>
        match v with
        | .str s => decodeInsertFields rest (some s) rw
        | _ => .error (.typeMismatch "table")
    else if k = "rows" then
      match rw with
      | some _ => .error (.duplicateField "rows")
      | none =>
        match decodeValueMap "rows" v with
        | .error e => .error e
        | .ok m => decodeInsertFields rest tb (some m)
    else decodeInsertFields rest tb rw

/-- Field loop of the `CreateCommand::User` struct variant. -/
def decodeUserFields : Fields → Option String → Option String →
    Option String → Except DecodeError CreateCommand
  | [], un, pw, rl =>
    match un with
    | none => .error (.missingField "username")
    | some username =>
      match pw with
      | none => .error (.missingField "password")
      | some password =>
        match rl with
        | none => .error (.missingField "role")
        | some role => .ok (.User username password role)
  | (k, v) :: rest, un, pw, rl =>
    if k = "username" then
      match un with
      | some _ => .error (.duplicateField "username")
      | none =>
        match v with
        | .str s => decodeUserFields rest (some s) pw rl
        | _ => .error (.typeMismatch "username")
    else if k = "password" then
      match pw with
      | some _ => .error (.duplicateField "password")
      | none =>
        match v with
        | .str s => decodeUserFields rest un (some s) rl
        | _ => .error (.typeMismatch "password")
    else if k = "role" then
      match rl with
      | some _ => .error (.duplicateField "role")
      | none =>
        match v with
        | .str s => decodeUserFields rest un pw (some s)
        | _ => .error (.typeMismatch "role")
    else decodeUserFields rest un pw rl

/-- Field loop of the `CreateCommand::Table` struct variant. -/
def decodeTableFields : Fields → Option String → Option String →
    Option (List (String × ColumnDefinition)) →
    Except DecodeError CreateCommand
  | [], tb, pk, rw =>
    match tb with
    | none => .error (.missingField "table")
    | some table =>
      match pk with
      | none => .error (.missingField "primary_key")
      | some primary_key =>
        match rw with
        | none => .error (.missingField "rows")
        | some rows => .ok (.Table table primary_key rows)
  | (k, v) :: rest, tb, pk, rw =>
    if k = "table" then
      match tb with
      | some _ => .error (.duplicateField "table")
      | none =>
        match v with
        | .str s => decodeTableFields rest (some s) pk rw
        | _ => .error (.typeMismatch "table")
    else if k = "primary_key" then
      match pk with
      | some _ => .error (.duplicateField "primary_key")
      | none =>
        match v with
        | .str s => decodeTableFields rest tb (some s) rw
        | _ => .error (.typeMismatch "primary_key")
    else if k = "rows" then
      match rw with
      | some _ => .error (.duplicateField "rows")
      | none =>
        match v with
        | .obj entries =>
          match decodeColumnMap entries [] with
          | .error e => .error e
          | .ok m => decodeTableFields rest tb pk (some m)
        | _ => .error (.typeMismatch "rows")
    else decodeTableFields rest tb pk rw

/-- Field loop of the `UpdateCommand::Rows` struct variant. -/
def decodeUpdateRowsFields : Fields → Option String →
    Option (List (String × ColumnDefinition)) →
    Except DecodeError UpdateCommand
  | [], tb, ad =>
    match tb with
    | none => .error (.missingField "table")
    | some table =>
      match ad with
      | none => .error (.missingField "add")
      | some add => .ok (.Rows table add)
  | (k, v) :: rest, tb, ad =>
    if k = "table" then
      match tb with
      | some _ => .error (.duplicateField "table")
      | none =>
        match v with
        | .str s => decodeUpdateRowsFields rest (some s) ad
        | _ => .error (.typeMismatch "table")
    else if k = "add" then
      match ad with
      | some _ => .error (.duplicateField "add")
      | none =>
        match v with
        | .obj entries =>
          match decodeColumnMap entries [] with
          | .error e => .error e
          | .ok m => decodeUpdateRowsFields rest tb (some m)
        | _ => .error (.typeMismatch "add")
    else decodeUpdateRowsFields rest tb ad

/-- Field loop of the `UpdateCommand::Content` struct variant. -/
def decodeUpdateContentFields : Fields → Option String → Option String →
    Option (List (String × Json)) → Except DecodeError UpdateCommand
  | [], tb, fl, rw =>
    match tb with
    | none => .error (.missingField "table")
    | some table =>
      match fl with
      | none => .error (.missingField "filter")
      | some filter =>
        match rw with
        | none => .error (.missingField "rows")
        | some rows => .ok (.Content table filter rows)
  | (k, v) :: rest, tb, fl, rw =>
    if k = "table" then
      match tb with
      | some _ => .error (.duplicateField "table")
      | none =>
        match v with
        | .str s => decodeUpdateContentFields rest (some s) fl rw
        | _ => .error (.typeMismatch "table")
    else if k = "filter" then
      match fl with
      | some _ => .error (.duplicateField "filter")
      | none =>
        match v with
        | .str s => decodeUpdateContentFields rest tb (some s) rw
        | _ => .error (.typeMismatch "filter")
    else if k = "rows" then
      match rw with
      | some _ => .error (.duplicateField "rows")
      | none =>
        match decodeValueMap "rows" v with
        | .error e => .error e
        | .ok m => decodeUpdateContentFields rest tb fl (some m)
    else decodeUpdateContentFields rest tb fl rw

/-- Field loop of the `DeleteCommand::Table` struct variant. -/
def decodeDeleteTableFields : Fields → Option String →
    Except DecodeError DeleteCommand
  | [], tb =>
    match tb with
    | none => .error (.missingField "table")
    | some table => .ok (.Table table)
  | (k, v) :: rest, tb =>
    if k = "table" then
      match tb with
      | some _ => .error (.duplicateField "table")
      | none =>
        match v with
        | .str s => decodeDeleteTableFields rest (some s)
        | _ => .error (.typeMismatch "table")
    else decodeDeleteTableFields rest tb

/-- Field loop of the `DeleteCommand::Content` struct variant. -/
def decodeDeleteContentFields : Fields → Option String → Option String →
    Except DecodeError DeleteCommand
  | [], tb, fl =>
    match tb with
    | none => .error (.missingField "table")
    | some table =>
      match fl with
      | none => .error (.missingField "filter")
      | some filter => .ok (.Content table filter)
  | (k, v) :: rest, tb, fl =>
    if k = "table" then
      match tb with
      | some _ => .error (.duplicateField "table")
      | none =>
        match v with
        | .str s => decodeDeleteContentFields rest (some s) fl
        | _ => .error (.typeMismatch "table")
    else if k = "filter" then
      match fl with
      | some _ => .error (.duplicateField "filter")
      | none =>
        match v with
        | .str s => decodeDeleteContentFields rest tb (some s)
        | _ => .error (.typeMismatch "filter")
    else decodeDeleteContentFields rest tb fl

/-- Positional deserialization of `ReadCommand`: `table`, then the
defaulted `filter` and `limit`. -/
def decodeReadSeq : List Json → Except DecodeError ReadCommand
  | [] => .error (.invalidLength "ReadCommand")
  | e₀ :: rest₀ =>
    match e₀ with
    | .str table =>
      match rest₀ with
      | [] => .ok ⟨table, [], none⟩
      | e₁ :: rest₁ =>
        match decodeValueMap "filter" e₁ with
        | .error e => .error e
        | .ok fl =>
          match rest₁ with
          | [] => .ok ⟨table, fl, none⟩
          | e₂ :: rest₂ =>
            match decodeLimit e₂ with
            | .error e => .error e
            | .ok lm =>
              match rest₂ with
              | [] => .ok ⟨table, fl, lm⟩
              | _ => .error (.invalidLength "ReadCommand")
    | _ => .error (.typeMismatch "table")

/-- Positional deserialization of `InsertCommand`: `table`, `rows`. -/
def decodeInsertSeq : List Json → Except DecodeError InsertCommand
  | [] => .error (.invalidLength "InsertCommand")
  | e₀ :: rest₀ =>
    match e₀ with
    | .str table =>
      match rest₀ with
      | [] => .error (.invalidLength "InsertCommand")
      | e₁ :: rest₁ =>
        match decodeValueMap "rows" e₁ with
        | .error e => .error e
        | .ok rows =>
          match rest₁ with
          | [] => .ok ⟨table, rows⟩
          | _ => .error (.invalidLength "InsertCommand")
    | _ => .error (.typeMismatch "table")

/-- Positional deserialization of the `CreateCommand::User` variant:
`username`, `password`, `role`. -/
def decodeUserSeq : List Json → Except DecodeError CreateCommand
  | [] => .error (.invalidLength "User")
  | e₀ :: rest₀ =>
    match e₀ with
    | .str un =>
      match rest₀ with
      | [] => .error (.invalidLength "User")
      | e₁ :: rest₁ =>
        match e₁ with
        | .str pw =>
          match rest₁ with
          | [] => .error (.invalidLength "User")
          | e₂ :: rest₂ =>
            match e₂ with
            | .str rl =>
              match rest₂ with
              | [] => .ok (.User un pw rl)
              | _ => .error (.invalidLength "User")
            | _ => .error (.typeMismatch "role")
        | _ => .error (.typeMismatch "password")
    | _ => .error (.typeMismatch "username")

/-- Positional deserialization of the `CreateCommand::Table` variant:
`table`, `primary_key`, `rows`. -/
def decodeTableSeq : List Json → Except DecodeError CreateCommand
  | [] => .error (.invalidLength "Table")
  | e₀ :: rest₀ =>
    match e₀ with
    | .str table =>
      match rest₀ with
      | [] => .error (.invalidLength "Table")
      | e₁ :: rest₁ =>
        match e₁ with
        | .str pk =>
          match rest₁ with
          | [] => .error (.invalidLength "Table")
          | e₂ :: rest₂ =>
            match e₂ with
            | .obj entries =>
              match decodeColumnMap entries [] with
              | .error e => .error e
              | .ok m =>
                match rest₂ with
                | [] => .ok (.Table table pk m)
                | _ => .error (.invalidLength "Table")
            | _ => .error (.typeMismatch "rows")
        | _ => .error (.typeMismatch "primary_key")
    | _ => .error (.typeMismatch "table")

/-- Positional deserialization of the `UpdateCommand::Rows` variant:
`table`, `add`. -/
def decodeUpdateRowsSeq : List Json → Except DecodeError UpdateCommand
  | [] => .error (.invalidLength "Rows")
  | e₀ :: rest₀ =>
    match e₀ with
    | .str table =>
      match rest₀ with
      | [] => .error (.invalidLength "Rows")
      | e₁ :: rest₁ =>
        match e₁ with
        | .obj entries =>
          match decodeColumnMap entries [] with
          | .error e => .error e
          | .ok m =>
            match rest₁ with
            | [] => .ok (.Rows table m)
            | _ => .error (.invalidLength "Rows")
        | _ => .error (.typeMismatch "add")
    | _ => .error (.typeMismatch "table")

/-- Positional deserialization of the `UpdateCommand::Content`
variant: `table`, `filter`, `rows`. -/
def decodeUpdateContentSeq : List Json → Except DecodeError UpdateCommand
  | [] => .error (.invalidLength "Content")
  | e₀ :: rest₀ =>
    match e₀ with
    | .str table =>
      match rest₀ with
      | [] => .error (.invalidLength "Content")
      | e₁ :: rest₁ =>
        match e₁ with
        | .str fl =>
          match rest₁ with
          | [] => .error (.invalidLength "Content")
          | e₂ :: rest₂ =>
            match decodeValueMap "rows" e₂ with
            | .error e => .error e
            | .ok rows =>
              match rest₂ with
              | [] => .ok (.Content table fl rows)
              | _ => .error (.invalidLength "Content")
        | _ => .error (.typeMismatch "filter")
    | _ => .error (.typeMismatch "table")

/-- Positional deserialization of the `DeleteCommand::Table` variant:
`table`. -/
def decodeDeleteTableSeq : List Json → Except DecodeError DeleteCommand
  | [] => .error (.invalidLength "Table")
  | e₀ :: rest₀ =>
    match e₀ with
    | .str table =>
      match rest₀ with
      | [] => .ok (.Table table)
      | _ => .error (.invalidLength "Table")
    | _ => .error (.typeMismatch "table")

/-- Positional deserialization of the `DeleteCommand::Content`
variant: `table`, `filter`. -/
def decodeDeleteContentSeq : List Json → Except DecodeError DeleteCommand
  | [] => .error (.invalidLength "Content")
  | e₀ :: rest₀ =>
    match e₀ with
    | .str table =>
      match rest₀ with
      | [] => .error (.invalidLength "Content")
      | e₁ :: rest₁ =>
        match e₁ with
        | .str fl =>
          match rest₁ with
          | [] => .ok (.Content table fl)
          | _ => .error (.invalidLength "Content")
        | _ => .error (.typeMismatch "filter")
    | _ => .error (.typeMismatch "table")

/-- Buffered serde `Content` as handed to a variant decoder: the
non-tag entries of an object, or the residual elements of an array. -/
inductive Content where
  | cmap (fields : Fields) : Content
  | cseq (elems : List Json) : Content

/-- Tag scan of an internally tagged enum over an object: walk the
entries in order, take the first occurrence of `tag` (its value is
resolved through the variant identifier; an unrecognized value fails
immediately, a second occurrence is a duplicate field), buffer every
other entry in order, and fail with a missing field when the tag never
appears. -/
def scanTag (tag : String) (variants : List String) :
    Fields → Option String → Fields → Except DecodeError (String × Fields)
  | [], none, _ => .error (.missingField tag)
  | [], some t, acc => .ok (t, acc.reverse)
  | (k, v) :: rest, found, acc =>
    if k = tag then
      match found with
      | some _ => .error (.duplicateField tag)
      | none =>
        match variantOfTag tag variants v with
        | .error e => .error e
        | .ok t => scanTag tag variants rest (some t) acc
    else scanTag tag variants rest found ((k, v) :: acc)

/-- Deserialize `CreateCommand` from buffered content: an object is
tag-scanned for `type`, an array takes its first element as the tag
and the rest positionally. -/
def decodeCreate : Content → Except DecodeError CreateCommand
  | .cmap fields =>
    match scanTag "type" ["user", "table"] fields none [] with
    | .error e => .error e
    | .ok (t, rest) =>
      if t = "user" then decodeUserFields rest none none none
      else if t = "table" then decodeTableFields rest none none none
      else .error (.unknownVariant "type" t)
  | .cseq elems =>
    match elems with
    | [] => .error (.missingField "type")
    | tagv :: rest =>
      match variantOfTag "type" ["user", "table"] tagv with
      | .error e => .error e
      | .ok t =>
        if t = "user" then decodeUserSeq rest
        else if t = "table" then decodeTableSeq rest
        else .error (.unknownVariant "type" t)

/-- Deserialize `UpdateCommand` from buffered content. -/
def decodeUpdate : Content → Except DecodeError UpdateCommand
  | .cmap fields =>
    match scanTag "type" ["rows", "content"] fields none [] with
    | .error e => .error e
    | .ok (t, rest) =>
      if t = "rows" then decodeUpdateRowsFields rest none none
      else if t = "content" then decodeUpdateContentFields rest none none none
      else .error (.unknownVariant "type" t)
  | .cseq elems =>
    match elems with
    | [] => .error (.missingField "type")
    | tagv :: rest =>
      match variantOfTag "type" ["rows", "content"] tagv with
      | .error e => .error e
      | .ok t =>
        if t = "rows" then decodeUpdateRowsSeq rest
        else if t = "content" then decodeUpdateContentSeq rest
        else .error (.unknownVariant "type" t)

/-- Deserialize `DeleteCommand` from buffered content. -/
def decodeDelete : Content → Except DecodeError DeleteCommand
  | .cmap fields =>
    match scanTag "type" ["table", "content"] fields none [] with
    | .error e => .error e
    | .ok (t, rest) =>
      if t = "table" then decodeDeleteTableFields rest none
      else if t = "content" then decodeDeleteContentFields rest none none
      else .error (.unknownVariant "type" t)
  | .cseq elems =>
    match elems with
    | [] => .error (.missingField "type")
    | tagv :: rest =>
      match variantOfTag "type" ["table", "content"] tagv with
      | .error e => .error e
      | .ok t =>
        if t = "table" then decodeDeleteTableSeq rest
        else if t = "content" then decodeDeleteContentSeq rest
        else .error (.unknownVariant "type" t)

/-- Dispatch a resolved top-level variant name on buffered content. -/
def dispatchCommand (t : String) : Content → Except DecodeError Command
  | .cmap rest =>
    if t = "create" then (decodeCreate (.cmap rest)).map Command.Create
    else if t = "read" then
      (decodeReadFields rest none none none).map Command.Read
    else if t = "update" then (decodeUpdate (.cmap rest)).map Command.Update
    else if t = "insert" then
      (decodeInsertFields rest none none).map Command.Insert
    else if t = "delete" then (decodeDelete (.cmap rest)).map Command.Delete
    else .error (.unknownVariant "command" t)
  | .cseq rest =>
    if t = "create" then (decodeCreate (.cseq rest)).map Command.Create
    else if t = "read" then (decodeReadSeq rest).map Command.Read
    else if t = "update" then (decodeUpdate (.cseq rest)).map Command.Update
    else if t = "insert" then (decodeInsertSeq rest).map Command.Insert
    else if t = "delete" then (decodeDelete (.cseq rest)).map Command.Delete
    else .error (.unknownVariant "command" t)

/-- Top-level decoder: `serde_json` deserialization of `Command`.  An
object is tag-scanned for `command` and the remaining entries feed the
variant decoder; an array takes its first element as the tag and the
remaining elements as positional content; any other shape is an
invalid type for the internally tagged enum. -/
def decodeCommand : Json → Except DecodeError Command
  | .obj fields =>
    match scanTag "command" ["create", "read", "update", "insert", "delete"]
        fields none [] with
    | .error e => .error e
    | .ok (t, rest) => dispatchCommand t (.cmap rest)
  | .arr elems =>
    match elems with
    | [] => .error (.missingField "command")
    | tagv :: rest =>
      match variantOfTag "command"
          ["create", "read", "update", "insert", "delete"] tagv with
      | .error e => .error e
      | .ok t => dispatchCommand t (.cseq rest)
  | _ => .error .notAnObject

/-- No entry of the object carries the key `f`: the serde field loop
never sees `f`. -/
def keyAbsent (f : String) (fields : Fields) : Prop :=
  ∀ p ∈ fields, p.1 ≠ f

instance (f : String) (fields : Fields) : Decidable (keyAbsent f fields) :=
  inferInstanceAs (Decidable (∀ p ∈ fields, p.1 ≠ f))

/-! ## General lemmas about the decoder -/

/-- Scanning past a non-tag entry buffers it and continues. -/
theorem scanTag_skip (tag : String) (variants : List String) (k : String)
    (v : Json) (rest : Fields) (found : Option String) (acc : Fields)
    (hk : k ≠ tag) :
    scanTag tag variants ((k, v) :: rest) found acc =
      scanTag tag variants rest found ((k, v) :: acc) := by
  cases found <;> cases v <;> simp [scanTag, hk]

/-- Once the tag has been found, scanning the remaining entries (none
of which repeats the tag) succeeds and returns them in order. -/
theorem scanTag_found (tag : String) (variants : List String) :
    ∀ (rest : Fields) (t : String) (acc : Fields),
    (∀ p ∈ rest, p.1 ≠ tag) →
    scanTag tag variants rest (some t) acc = .ok (t, acc.reverse ++ rest)
  | [], t, acc, _ => by simp [scanTag]
  | (k, v) :: rest, t, acc, h => by
    have hk : k ≠ tag := h (k, v) (List.mem_cons_self _ _)
    have h' : ∀ p ∈ rest, p.1 ≠ tag := fun p hp => h p (List.mem_cons_of_mem _ hp)
    rw [scanTag_skip tag variants k v rest (some t) acc hk,
      scanTag_found tag variants rest t ((k, v) :: acc) h']
    simp

/-- A tag whose first occurrence carries an unrecognized string value
makes the scan fail with an unknown-variant error. -/
theorem scanTag_unknown (tag : String) (variants : List String) :
    ∀ (pre : Fields) (rest : Fields) (s : String) (acc : Fields),
    (∀ p ∈ pre, p.1 ≠ tag) → s ∉ variants →
    scanTag tag variants (pre ++ (tag, .str s) :: rest) none acc =
      .error (.unknownVariant tag s)
  | [], rest, s, acc, _, hs => by simp [scanTag, variantOfTag, hs]
  | (k, v) :: pre, rest, s, acc, h, hs => by
    have hk : k ≠ tag := h (k, v) (List.mem_cons_self _ _)
    have h' : ∀ p ∈ pre, p.1 ≠ tag := fun p hp => h p (List.mem_cons_of_mem _ hp)
    rw [List.cons_append, scanTag_skip tag variants k v _ none acc hk]
    exact scanTag_unknown tag variants pre rest s ((k, v) :: acc) h' hs

/-- A leading tag entry with a recognized value makes the scan succeed
with the remaining (tag-free) entries as buffered content. -/
theorem scanTag_head (tag : String) (variants : List String) (t : String)
    (rest : Fields) (acc : Fields) (hv : t ∈ variants)
    (hrest : ∀ p ∈ rest, p.1 ≠ tag) :
    scanTag tag variants ((tag, .str t) :: rest) none acc =
      .ok (t, acc.reverse ++ rest) := by
  have hstep : scanTag tag variants ((tag, .str t) :: rest) none acc =
      scanTag tag variants rest (some t) acc := by
    simp [scanTag, variantOfTag, hv]
  rw [hstep, scanTag_found tag variants rest t acc hrest]

theorem keyAbsent_head {f k : String} {v : Json} {rest : Fields}
    (h : keyAbsent f ((k, v) :: rest)) : k ≠ f :=
  h (k, v) (List.mem_cons_self _ _)

theorem keyAbsent_tail {f k : String} {v : Json} {rest : Fields}
    (h : keyAbsent f ((k, v) :: rest)) : keyAbsent f rest :=
  fun p hp => h p (List.mem_cons_of_mem _ hp)

theorem keyAbsent_cons_of {f k : String} {v : Json} {rest : Fields}
    (hk : k ≠ f) (h : keyAbsent f rest) : keyAbsent f ((k, v) :: rest) := by
  intro p hp
  rcases List.mem_cons.mp hp with rfl | hp
  · exact hk
  · exact h p hp

theorem keyAbsent_append {f : String} {xs ys : Fields}
    (hx : keyAbsent f xs) (hy : keyAbsent f ys) : keyAbsent f (xs ++ ys) := by
  intro p hp
  rcases List.mem_append.mp hp with h | h
  · exact hx p h
  · exact hy p h

/-- Success of a struct field loop forces every required field to be
present or already accumulated: one lemma per struct or struct
variant, proved by walking the entries as the derived deserializer
does. -/
theorem decodeUserFields_requires :
    ∀ (fields : Fields) (un pw rl : Option String) (c : CreateCommand),
    decodeUserFields fields un pw rl = .ok c →
    (keyAbsent "username" fields → un.isSome) ∧
    (keyAbsent "password" fields → pw.isSome) ∧
    (keyAbsent "role" fields → rl.isSome)
  | [], un, pw, rl, c, h => by
    cases un <;> cases pw <;> cases rl <;> simp [decodeUserFields] at h
    simp
  | (k, v) :: fields, un, pw, rl, c, h => by
    by_cases e1 : k = "username"
    · subst e1
      cases un with
      | some u => simp [decodeUserFields] at h
      | none =>
        cases v <;> simp [decodeUserFields] at h
        have ih := decodeUserFields_requires fields _ pw rl c h
        exact ⟨fun hab => absurd rfl (keyAbsent_head hab),
          fun hab => ih.2.1 (keyAbsent_tail hab),
          fun hab => ih.2.2 (keyAbsent_tail hab)⟩
    · by_cases e2 : k = "password"
      · subst e2
        cases pw with
        | some u => simp [decodeUserFields, e1] at h
        | none =>
          cases v <;> simp [decodeUserFields, e1] at h
          have ih := decodeUserFields_requires fields un _ rl c h
          exact ⟨fun hab => ih.1 (keyAbsent_tail hab),
            fun hab => absurd rfl (keyAbsent_head hab),
            fun hab => ih.2.2 (keyAbsent_tail hab)⟩
      · by_cases e3 : k = "role"
        · subst e3
          cases rl with
          | some u => simp [decodeUserFields, e1, e2] at h
          | none =>
            cases v <;> simp [decodeUserFields, e1, e2] at h
            have ih := decodeUserFields_requires fields un pw _ c h
            exact ⟨fun hab => ih.1 (keyAbsent_tail hab),
              fun hab => ih.2.1 (keyAbsent_tail hab),
              fun hab => absurd rfl (keyAbsent_head hab)⟩
        · simp [decodeUserFields, e1, e2, e3] at h
          have ih := decodeUserFields_requires fields un pw rl c h
          exact ⟨fun hab => ih.1 (keyAbsent_tail hab),
            fun hab => ih.2.1 (keyAbsent_tail hab),
            fun hab => ih.2.2 (keyAbsent_tail hab)⟩

theorem decodeReadFields_requires :
    ∀ (fields : Fields) (tb : Option String)
    (fl : Option (List (String × Json))) (lm : Option (Option Nat))
    (c : ReadCommand),
    decodeReadFields fields tb fl lm = .ok c →
    (keyAbsent "table" fields → tb.isSome)
  | [], tb, fl, lm, c, h => by
    cases tb <;> simp [decodeReadFields] at h
    simp
  | (k, v) :: fields, tb, fl, lm, c, h => by
    by_cases e1 : k = "table"
    · subst e1
      exact fun hab => absurd rfl (keyAbsent_head hab)
    · by_cases e2 : k = "filter"
      · subst e2
        cases fl with
        | some u => simp [decodeReadFields, e1] at h
        | none =>
          cases hvm : decodeValueMap "filter" v with
          | error e => simp [decodeReadFields, e1, hvm] at h
          | ok m =>
            simp [decodeReadFields, e1, hvm] at h
            have ih := decodeReadFields_requires fields tb _ lm c h
            exact fun hab => ih (keyAbsent_tail hab)
      · by_cases e3 : k = "limit"
        · subst e3
          cases lm with
          | some u => simp [decodeReadFields, e1, e2] at h
          | none =>
            cases hdl : decodeLimit v with
            | error e => simp [decodeReadFields, e1, e2, hdl] at h
            | ok n =>
              simp [decodeReadFields, e1, e2, hdl] at h
              have ih := decodeReadFields_requires fields tb fl _ c h
              exact fun hab => ih (keyAbsent_tail hab)
        · simp [decodeReadFields, e1, e2, e3] at h
          have ih := decodeReadFields_requires fields tb fl lm c h
          exact fun hab => ih (keyAbsent_tail hab)

theorem decodeInsertFields_requires :
    ∀ (fields : Fields) (tb : Option String)
    (rws : Option (List (String × Json))) (c : InsertCommand),
    decodeInsertFields fields tb rws = .ok c →
    (keyAbsent "table" fields → tb.isSome) ∧
    (keyAbsent "rows" fields → rws.isSome)
  | [], tb, rws, c, h => by
    cases tb <;> cases rws <;> simp [decodeInsertFields] at h
    simp
  | (k, v) :: fields, tb, rws, c, h => by
    by_cases e1 : k = "table"
    · subst e1
      cases tb with
      | some u => simp [decodeInsertFields] at h
      | none =>
        cases v <;> simp [decodeInsertFields] at h
        have ih := decodeInsertFields_requires fields _ rws c h
        exact ⟨fun hab => absurd rfl (keyAbsent_head hab),
          fun hab => ih.2 (keyAbsent_tail hab)⟩
    · by_cases e2 : k = "rows"
      · subst e2
        cases rws with
        | some u => simp [decodeInsertFields, e1] at h
        | none =>
          cases hvm : decodeValueMap "rows" v with
          | error e => simp [decodeInsertFields, e1, hvm] at h
          | ok m =>
            simp [decodeInsertFields, e1, hvm] at h
            have ih := decodeInsertFields_requires fields tb _ c h
            exact ⟨fun hab => ih.1 (keyAbsent_tail hab),
              fun hab => absurd rfl (keyAbsent_head hab)⟩
      · simp [decodeInsertFields, e1, e2] at h
        have ih := decodeInsertFields_requires fields tb rws c h
        exact ⟨fun hab => ih.1 (keyAbsent_tail hab),
          fun hab => ih.2 (keyAbsent_tail hab)⟩

theorem decodeDeleteTableFields_requires :
    ∀ (fields : Fields) (tb : Option String) (c : DeleteCommand),
    decodeDeleteTableFields fields tb = .ok c →
    (keyAbsent "table" fields → tb.isSome)
  | [], tb, c, h => by
    cases tb <;> simp [decodeDeleteTableFields] at h
    simp
  | (k, v) :: fields, tb, c, h => by
    by_cases e1 : k = "table"
    · subst e1
      exact fun hab => absurd rfl (keyAbsent_head hab)
    · simp [decodeDeleteTableFields, e1] at h
      have ih := decodeDeleteTableFields_requires fields tb c h
      exact fun hab => ih (keyAbsent_tail hab)
theorem decodeDeleteContentFields_requires :
    ∀ (fields : Fields) (tb fl : Option String) (c : DeleteCommand),
    decodeDeleteContentFields fields tb fl = .ok c →
    (keyAbsent "table" fields → tb.isSome) ∧
    (keyAbsent "filter" fields → fl.isSome)
  | [], tb, fl, c, h => by
    cases tb <;> cases fl <;> simp [decodeDeleteContentFields] at h
    simp
  | (k, v) :: fields, tb, fl, c, h => by
    by_cases e1 : k = "table"
    · subst e1
      cases tb with
      | some u => simp [decodeDeleteContentFields] at h
      | none =>
        cases v <;> simp [decodeDeleteContentFields] at h
        have ih := decodeDeleteContentFields_requires fields _ fl c h
        exact ⟨fun hab => absurd rfl (keyAbsent_head hab),
          fun hab => ih.2 (keyAbsent_tail hab)⟩
    · by_cases e2 : k = "filter"
      · subst e2
        cases fl with
        | some u => simp [decodeDeleteContentFields, e1] at h
        | none =>
          cases v <;> simp [decodeDeleteContentFields, e1] at h
          have ih := decodeDeleteContentFields_requires fields tb _ c h
          exact ⟨fun hab => ih.1 (keyAbsent_tail hab),
            fun hab => absurd rfl (keyAbsent_head hab)⟩
      · simp [decodeDeleteContentFields, e1, e2] at h
        have ih := decodeDeleteContentFields_requires fields tb fl c h
        exact ⟨fun hab => ih.1 (keyAbsent_tail hab),
          fun hab => ih.2 (keyAbsent_tail hab)⟩

theorem decodeTableFields_requires :
    ∀ (fields : Fields) (tb pk : Option String)
    (rws : Option (List (String × ColumnDefinition))) (c : CreateCommand),
    decodeTableFields fields tb pk rws = .ok c →
    (keyAbsent "table" fields → tb.isSome) ∧
    (keyAbsent "primary_key" fields → pk.isSome) ∧
    (keyAbsent "rows" fields → rws.isSome)
  | [], tb, pk, rws, c, h => by
    cases tb <;> cases pk <;> cases rws <;> simp [decodeTableFields] at h
    simp
  | (k, v) :: fields, tb, pk, rws, c, h => by
    by_cases e1 : k = "table"
    · subst e1
      cases tb with
      | some u => simp [decodeTableFields] at h
      | none =>
        cases v <;> simp [decodeTableFields] at h
        have ih := decodeTableFields_requires fields _ pk rws c h
        exact ⟨fun hab => absurd rfl (keyAbsent_head hab),
          fun hab => ih.2.1 (keyAbsent_tail hab),
          fun hab => ih.2.2 (keyAbsent_tail hab)⟩
    · by_cases e2 : k = "primary_key"
      · subst e2
        cases pk with
        | some u => simp [decodeTableFields, e1] at h
        | none =>
          cases v <;> simp [decodeTableFields, e1] at h
          have ih := decodeTableFields_requires fields tb _ rws c h
          exact ⟨fun hab => ih.1 (keyAbsent_tail hab),
            fun hab => absurd rfl (keyAbsent_head hab),
            fun hab => ih.2.2 (keyAbsent_tail hab)⟩
      · by_cases e3 : k = "rows"
        · subst e3
          cases rws with
          | some u => simp [decodeTableFields, e1, e2] at h
          | none =>
            cases v with
            | obj entries =>
              cases hcm : decodeColumnMap entries [] with
              | error e => simp [decodeTableFields, e1, e2, hcm] at h
              | ok m =>
                simp [decodeTableFields, e1, e2, hcm] at h
                have ih := decodeTableFields_requires fields tb pk _ c h
                exact ⟨fun hab => ih.1 (keyAbsent_tail hab),
                  fun hab => ih.2.1 (keyAbsent_tail hab),
                  fun hab => absurd rfl (keyAbsent_head hab)⟩
            | null => simp [decodeTableFields, e1, e2] at h
            | bool b => simp [decodeTableFields, e1, e2] at h
            | num q => simp [decodeTableFields, e1, e2] at h
            | str s => simp [decodeTableFields, e1, e2] at h
            | arr xs => simp [decodeTableFields, e1, e2] at h
        · simp [decodeTableFields, e1, e2, e3] at h
          have ih := decodeTableFields_requires fields tb pk rws c h
          exact ⟨fun hab => ih.1 (keyAbsent_tail hab),
            fun hab => ih.2.1 (keyAbsent_tail hab),
            fun hab => ih.2.2 (keyAbsent_tail hab)⟩

theorem decodeUpdateRowsFields_requires :
    ∀ (fields : Fields) (tb : Option String)
    (ad : Option (List (String × ColumnDefinition))) (c : UpdateCommand),
    decodeUpdateRowsFields fields tb ad = .ok c →
    (keyAbsent "table" fields → tb.isSome) ∧
    (keyAbsent "add" fields → ad.isSome)
  | [], tb, ad, c, h => by
    cases tb <;> cases ad <;> simp [decodeUpdateRowsFields] at h
    simp
  | (k, v) :: fields, tb, ad, c, h => by
    by_cases e1 : k = "table"
    · subst e1
      cases tb with
      | some u => simp [decodeUpdateRowsFields] at h
      | none =>
        cases v <;> simp [decodeUpdateRowsFields] at h
        have ih := decodeUpdateRowsFields_requires fields _ ad c h
        exact ⟨fun hab => absurd rfl (keyAbsent_head hab),
          fun hab => ih.2 (keyAbsent_tail hab)⟩
    · by_cases e2 : k = "add"
      · subst e2
        cases ad with
        | some u => simp [decodeUpdateRowsFields, e1] at h
        | none =>
          cases v with
          | obj entries =>
            cases hcm : decodeColumnMap entries [] with
            | error e => simp [decodeUpdateRowsFields, e1, hcm] at h
            | ok m =>
              simp [decodeUpdateRowsFields, e1, hcm] at h
              have ih := decodeUpdateRowsFields_requires fields tb _ c h
              exact ⟨fun hab => ih.1 (keyAbsent_tail hab),
                fun hab => absurd rfl (keyAbsent_head hab)⟩
          | null => simp [decodeUpdateRowsFields, e1] at h
          | bool b => simp [decodeUpdateRowsFields, e1] at h
          | num q => simp [decodeUpdateRowsFields, e1] at h
          | str s => simp [decodeUpdateRowsFields, e1] at h
          | arr xs => simp [decodeUpdateRowsFields, e1] at h
      · simp [decodeUpdateRowsFields, e1, e2] at h
        have ih := decodeUpdateRowsFields_requires fields tb ad c h
        exact ⟨fun hab => ih.1 (keyAbsent_tail hab),
          fun hab => ih.2 (keyAbsent_tail hab)⟩
theorem decodeUpdateContentFields_requires :
    ∀ (fields : Fields) (tb fl : Option String)
    (rws : Option (List (String × Json))) (c : UpdateCommand),
    decodeUpdateContentFields fields tb fl rws = .ok c →
    (keyAbsent "table" fields → tb.isSome) ∧
    (keyAbsent "filter" fields → fl.isSome) ∧
    (keyAbsent "rows" fields → rws.isSome)
  | [], tb, fl, rws, c, h => by
    cases tb <;> cases fl <;> cases rws <;> simp [decodeUpdateContentFields] at h
    simp
  | (k, v) :: fields, tb, fl, rws, c, h => by
    by_cases e1 : k = "table"
    · subst e1
      cases tb with
      | some u => simp [decodeUpdateContentFields] at h
      | none =>
        cases v <;> simp [decodeUpdateContentFields] at h
        have ih := decodeUpdateContentFields_requires fields _ fl rws c h
        exact ⟨fun hab => absurd rfl (keyAbsent_head hab),
          fun hab => ih.2.1 (keyAbsent_tail hab),
          fun hab => ih.2.2 (keyAbsent_tail hab)⟩
    · by_cases e2 : k = "filter"
      · subst e2
        cases fl with
        | some u => simp [decodeUpdateContentFields, e1] at h
        | none =>
          cases v <;> simp [decodeUpdateContentFields, e1] at h
          have ih := decodeUpdateContentFields_requires fields tb _ rws c h
          exact ⟨fun hab => ih.1 (keyAbsent_tail hab),
            fun hab => absurd rfl (keyAbsent_head hab),
            fun hab => ih.2.2 (keyAbsent_tail hab)⟩
      · by_cases e3 : k = "rows"
        · subst e3
          cases rws with
          | some u => simp [decodeUpdateContentFields, e1, e2] at h
          | none =>
            cases hvm : decodeValueMap "rows" v with
            | error e => simp [decodeUpdateContentFields, e1, e2, hvm] at h
            | ok m =>
              simp [decodeUpdateContentFields, e1, e2, hvm] at h
              have ih := decodeUpdateContentFields_requires fields tb fl _ c h
              exact ⟨fun hab => ih.1 (keyAbsent_tail hab),
                fun hab => ih.2.1 (keyAbsent_tail hab),
                fun hab => absurd rfl (keyAbsent_head hab)⟩
        · simp [decodeUpdateContentFields, e1, e2, e3] at h
          have ih := decodeUpdateContentFields_requires fields tb fl rws c h
          exact ⟨fun hab => ih.1 (keyAbsent_tail hab),
            fun hab => ih.2.1 (keyAbsent_tail hab),
            fun hab => ih.2.2 (keyAbsent_tail hab)⟩

/-- The `InsertCommand` field loop ignores an entry whose key is
neither `table` nor `rows`, wherever it occurs. -/
theorem decodeInsertFields_skip :
    ∀ (pre : Fields) (k : String) (v : Json) (post : Fields)
    (tb : Option String) (rws : Option (List (String × Json))),
    k ≠ "table" → k ≠ "rows" →
    decodeInsertFields (pre ++ (k, v) :: post) tb rws =
      decodeInsertFields (pre ++ post) tb rws
  | [], k, v, post, tb, rws, h1, h2 => by
    simp [decodeInsertFields, h1, h2]
  | (k₀, v₀) :: pre, k, v, post, tb, rws, h1, h2 => by
    by_cases e1 : k₀ = "table"
    · subst e1
      cases tb with
      | some t => simp [decodeInsertFields]
      | none =>
        cases v₀ <;> simp [decodeInsertFields]
        exact decodeInsertFields_skip pre k v post _ rws h1 h2
    · by_cases e2 : k₀ = "rows"
      · subst e2
        cases rws with
        | some m => simp [decodeInsertFields]
        | none =>
          cases v₀ <;> simp [decodeInsertFields, decodeValueMap]
          exact decodeInsertFields_skip pre k v post tb _ h1 h2
      · simp [decodeInsertFields, e1, e2]
        exact decodeInsertFields_skip pre k v post tb rws h1 h2

theorem decodeUserFields_skip :
    ∀ (pre : Fields) (k : String) (v : Json) (post : Fields)
    (un pw rl : Option String),
    k ≠ "username" → k ≠ "password" → k ≠ "role" →
    decodeUserFields (pre ++ (k, v) :: post) un pw rl =
      decodeUserFields (pre ++ post) un pw rl
  | [], k, v, post, un, pw, rl, h1, h2, h3 => by
    simp [decodeUserFields, h1, h2, h3]
  | (k₀, v₀) :: pre, k, v, post, un, pw, rl, h1, h2, h3 => by
    by_cases e1 : k₀ = "username"
    · subst e1
      cases un with
      | some u => simp [decodeUserFields]
      | none =>
        cases v₀ <;> simp [decodeUserFields]
        exact decodeUserFields_skip pre k v post _ pw rl h1 h2 h3
    · by_cases e2 : k₀ = "password"
      · subst e2
        cases pw with
        | some u => simp [decodeUserFields, e1]
        | none =>
          cases v₀ <;> simp [decodeUserFields, e1]
          exact decodeUserFields_skip pre k v post un _ rl h1 h2 h3
      · by_cases e3 : k₀ = "role"
        · subst e3
          cases rl with
          | some u => simp [decodeUserFields, e1, e2]
          | none =>
            cases v₀ <;> simp [decodeUserFields, e1, e2]
            exact decodeUserFields_skip pre k v post un pw _ h1 h2 h3
        · simp [decodeUserFields, e1, e2, e3]
          exact decodeUserFields_skip pre k v post un pw rl h1 h2 h3

theorem decodeReadFields_skip :
    ∀ (pre : Fields) (k : String) (v : Json) (post : Fields)
    (tb : Option String) (fl : Option (List (String × Json)))
    (lm : Option (Option Nat)),
    k ≠ "table" → k ≠ "filter" → k ≠ "limit" →
    decodeReadFields (pre ++ (k, v) :: post) tb fl lm =
      decodeReadFields (pre ++ post) tb fl lm
  | [], k, v, post, tb, fl, lm, h1, h2, h3 => by
    simp [decodeReadFields, h1, h2, h3]
  | (k₀, v₀) :: pre, k, v, post, tb, fl, lm, h1, h2, h3 => by
    by_cases e1 : k₀ = "table"
    · subst e1
      cases tb with
      | some u => simp [decodeReadFields]
      | none =>
        cases v₀ <;> simp [decodeReadFields]
        exact decodeReadFields_skip pre k v post _ fl lm h1 h2 h3
    · by_cases e2 : k₀ = "filter"
      · subst e2
        cases fl with
        | some u => simp [decodeReadFields, e1]
        | none =>
          cases hvm : decodeValueMap "filter" v₀ with
          | error e => simp [decodeReadFields, e1, hvm]
          | ok m =>
            simp [decodeReadFields, e1, hvm]
            exact decodeReadFields_skip pre k v post tb _ lm h1 h2 h3
      · by_cases e3 : k₀ = "limit"
        · subst e3
          cases lm with
          | some u => simp [decodeReadFields, e1, e2]
          | none =>
            cases hdl : decodeLimit v₀ with
            | error e => simp [decodeReadFields, e1, e2, hdl]
            | ok n =>
              simp [decodeReadFields, e1, e2, hdl]
              exact decodeReadFields_skip pre k v post tb fl _ h1 h2 h3
        · simp [decodeReadFields, e1, e2, e3]
          exact decodeReadFields_skip pre k v post tb fl lm h1 h2 h3

theorem decodeTableFields_skip :
    ∀ (pre : Fields) (k : String) (v : Json) (post : Fields)
    (tb pk : Option String) (rws : Option (List (String × ColumnDefinition))),
    k ≠ "table" → k ≠ "primary_key" → k ≠ "rows" →
    decodeTableFields (pre ++ (k, v) :: post) tb pk rws =
      decodeTableFields (pre ++ post) tb pk rws
  | [], k, v, post, tb, pk, rws, h1, h2, h3 => by
    simp [decodeTableFields, h1, h2, h3]
  | (k₀, v₀) :: pre, k, v, post, tb, pk, rws, h1, h2, h3 => by
    by_cases e1 : k₀ = "table"
    · subst e1
      cases tb with
      | some u => simp [decodeTableFields]
      | none =>
        cases v₀ <;> simp [decodeTableFields]
        exact decodeTableFields_skip pre k v post _ pk rws h1 h2 h3
    · by_cases e2 : k₀ = "primary_key"
      · subst e2
        cases pk with
        | some u => simp [decodeTableFields, e1]
        | none =>
          cases v₀ <;> simp [decodeTableFields, e1]
          exact decodeTableFields_skip pre k v post tb _ rws h1 h2 h3
      · by_cases e3 : k₀ = "rows"
        · subst e3
          cases rws with
          | some u => simp [decodeTableFields, e1, e2]
          | none =>
            cases v₀ with
            | obj entries =>
              cases hcm : decodeColumnMap entries [] with
              | error e => simp [decodeTableFields, e1, e2, hcm]
              | ok m =>
                simp [decodeTableFields, e1, e2, hcm]
                exact decodeTableFields_skip pre k v post tb pk _ h1 h2 h3
            | null => simp [decodeTableFields, e1, e2]
            | bool b => simp [decodeTableFields, e1, e2]
            | num q => simp [decodeTableFields, e1, e2]
            | str s => simp [decodeTableFields, e1, e2]
            | arr xs => simp [decodeTableFields, e1, e2]
        · simp [decodeTableFields, e1, e2, e3]
          exact decodeTableFields_skip pre k v post tb pk rws h1 h2 h3

theorem decodeUpdateRowsFields_skip :
    ∀ (pre : Fields) (k : String) (v : Json) (post : Fields)
    (tb : Option String) (ad : Option (List (String × ColumnDefinition))),
    k ≠ "table" → k ≠ "add" →
    decodeUpdateRowsFields (pre ++ (k, v) :: post) tb ad =
      decodeUpdateRowsFields (pre ++ post) tb ad
  | [], k, v, post, tb, ad, h1, h2 => by
    simp [decodeUpdateRowsFields, h1, h2]
  | (k₀, v₀) :: pre, k, v, post, tb, ad, h1, h2 => by
    by_cases e1 : k₀ = "table"
    · subst e1
      cases tb with
      | some u => simp [decodeUpdateRowsFields]
      | none =>
        cases v₀ <;> simp [decodeUpdateRowsFields]
        exact decodeUpdateRowsFields_skip pre k v post _ ad h1 h2
    · by_cases e2 : k₀ = "add"
      · subst e2
        cases ad with
        | some u => simp [decodeUpdateRowsFields, e1]
        | none =>
          cases v₀ with
          | obj entries =>
            cases hcm : decodeColumnMap entries [] with
            | error e => simp [decodeUpdateRowsFields, e1, hcm]
            | ok m =>
              simp [decodeUpdateRowsFields, e1, hcm]
              exact decodeUpdateRowsFields_skip pre k v post tb _ h1 h2
          | null => simp [decodeUpdateRowsFields, e1]
          | bool b => simp [decodeUpdateRowsFields, e1]
          | num q => simp [decodeUpdateRowsFields, e1]
          | str s => simp [decodeUpdateRowsFields, e1]
          | arr xs => simp [decodeUpdateRowsFields, e1]
      · simp [decodeUpdateRowsFields, e1, e2]
        exact decodeUpdateRowsFields_skip pre k v post tb ad h1 h2

theorem decodeUpdateContentFields_skip :
    ∀ (pre : Fields) (k : String) (v : Json) (post : Fields)
    (tb fl : Option String) (rws : Option (List (String × Json))),
    k ≠ "table" → k ≠ "filter" → k ≠ "rows" →
    decodeUpdateContentFields (pre ++ (k, v) :: post) tb fl rws =
      decodeUpdateContentFields (pre ++ post) tb fl rws
  | [], k, v, post, tb, fl, rws, h1, h2, h3 => by
    simp [decodeUpdateContentFields, h1, h2, h3]
  | (k₀, v₀) :: pre, k, v, post, tb, fl, rws, h1, h2, h3 => by
    by_cases e1 : k₀ = "table"
    · subst e1
      cases tb with
      | some u => simp [decodeUpdateContentFields]
      | none =>
        cases v₀ <;> simp [decodeUpdateContentFields]
        exact decodeUpdateContentFields_skip pre k v post _ fl rws h1 h2 h3
    · by_cases e2 : k₀ = "filter"
      · subst e2
        cases fl with
        | some u => simp [decodeUpdateContentFields, e1]
        | none =>
          cases v₀ <;> simp [decodeUpdateContentFields, e1]
          exact decodeUpdateContentFields_skip pre k v post tb _ rws h1 h2 h3
      · by_cases e3 : k₀ = "rows"
        · subst e3
          cases rws with
          | some u => simp [decodeUpdateContentFields, e1, e2]
          | none =>
            cases hvm : decodeValueMap "rows" v₀ with
            | error e => simp [decodeUpdateContentFields, e1, e2, hvm]
            | ok m =>
              simp [decodeUpdateContentFields, e1, e2, hvm]
              exact decodeUpdateContentFields_skip pre k v post tb fl _ h1 h2 h3
        · simp [decodeUpdateContentFields, e1, e2, e3]
          exact decodeUpdateContentFields_skip pre k v post tb fl rws h1 h2 h3

theorem decodeDeleteTableFields_skip :
    ∀ (pre : Fields) (k : String) (v : Json) (post : Fields)
    (tb : Option String),
    k ≠ "table" →
    decodeDeleteTableFields (pre ++ (k, v) :: post) tb =
      decodeDeleteTableFields (pre ++ post) tb
  | [], k, v, post, tb, h1 => by
    simp [decodeDeleteTableFields, h1]
  | (k₀, v₀) :: pre, k, v, post, tb, h1 => by
    by_cases e1 : k₀ = "table"
    · subst e1
      cases tb with
      | some u => simp [decodeDeleteTableFields]
      | none =>
        cases v₀ <;> simp [decodeDeleteTableFields]
        exact decodeDeleteTableFields_skip pre k v post _ h1
    · simp [decodeDeleteTableFields, e1]
      exact decodeDeleteTableFields_skip pre k v post tb h1
theorem decodeDeleteContentFields_skip :
    ∀ (pre : Fields) (k : String) (v : Json) (post : Fields)
    (tb fl : Option String),
    k ≠ "table" → k ≠ "filter" →
    decodeDeleteContentFields (pre ++ (k, v) :: post) tb fl =
      decodeDeleteContentFields (pre ++ post) tb fl
  | [], k, v, post, tb, fl, h1, h2 => by
    simp [decodeDeleteContentFields, h1, h2]
  | (k₀, v₀) :: pre, k, v, post, tb, fl, h1, h2 => by
    by_cases e1 : k₀ = "table"
    · subst e1
      cases tb with
      | some u => simp [decodeDeleteContentFields]
      | none =>
        cases v₀ <;> simp [decodeDeleteContentFields]
        exact decodeDeleteContentFields_skip pre k v post _ fl h1 h2
    · by_cases e2 : k₀ = "filter"
      · subst e2
        cases fl with
        | some u => simp [decodeDeleteContentFields, e1]
        | none =>
          cases v₀ <;> simp [decodeDeleteContentFields, e1]
          exact decodeDeleteContentFields_skip pre k v post tb _ h1 h2
      · simp [decodeDeleteContentFields, e1, e2]
        exact decodeDeleteContentFields_skip pre k v post tb fl h1 h2

/-- If some entry of a column map fails to decode, the whole map
decode can never succeed, whatever the accumulator. -/
theorem decodeColumnMap_no_ok :
    ∀ (entries : Fields) (acc : List (String × ColumnDefinition))
    (k : String) (v : Json) (e : DecodeError),
    (k, v) ∈ entries → decodeColumnDef v = .error e →
    ∀ m, decodeColumnMap entries acc ≠ .ok m
  | [], _, _, _, _, hmem, _, _ => by simp at hmem
  | (k₀, v₀) :: entries, acc, k, v, e, hmem, hbad, m => by
    rcases List.mem_cons.mp hmem with heq | hmem'
    · injection heq with hk hv
      subst hv
      simp [decodeColumnMap, hbad]
    · cases hcd : decodeColumnDef v₀ with
      | error e₀ => simp [decodeColumnMap, hcd]
      | ok cd =>
        simp [decodeColumnMap, hcd]
        exact decodeColumnMap_no_ok entries _ k v e hmem' hbad m

/-- Message-shape reduction lemmas: with the discriminants in head
position and no stray tag keys in the payload, `decodeCommand`
reduces to the selected variant field loop. -/
theorem decodeCommand_create_user (payload : Fields)
    (hcmd : keyAbsent "command" payload) (htype : keyAbsent "type" payload) :
    decodeCommand (.obj (("command", .str "create") ::
      ("type", .str "user") :: payload)) =
      (decodeUserFields payload none none none).map Command.Create := by
  have hrest : keyAbsent "command" (("type", Json.str "user") :: payload) :=
    keyAbsent_cons_of (by decide) hcmd
  have h1 := scanTag_head "command" ["create", "read", "update", "insert", "delete"]
    "create" (("type", Json.str "user") :: payload) [] (by decide) hrest
  have h2 := scanTag_head "type" ["user", "table"] "user" payload [] (by decide) htype
  simp only [List.reverse_nil, List.nil_append] at h1 h2
  simp [decodeCommand, dispatchCommand, decodeCreate, h1, h2]

theorem decodeCommand_create_table (payload : Fields)
    (hcmd : keyAbsent "command" payload) (htype : keyAbsent "type" payload) :
    decodeCommand (.obj (("command", .str "create") ::
      ("type", .str "table") :: payload)) =
      (decodeTableFields payload none none none).map Command.Create := by
  have hrest : keyAbsent "command" (("type", Json.str "table") :: payload) :=
    keyAbsent_cons_of (by decide) hcmd
  have h1 := scanTag_head "command" ["create", "read", "update", "insert", "delete"]
    "create" (("type", Json.str "table") :: payload) [] (by decide) hrest
  have h2 := scanTag_head "type" ["user", "table"] "table" payload [] (by decide) htype
  simp only [List.reverse_nil, List.nil_append] at h1 h2
  simp [decodeCommand, dispatchCommand, decodeCreate, h1, h2]

theorem decodeCommand_read_payload (payload : Fields)
    (hcmd : keyAbsent "command" payload) :
    decodeCommand (.obj (("command", .str "read") :: payload)) =
      (decodeReadFields payload none none none).map Command.Read := by
  have h1 := scanTag_head "command" ["create", "read", "update", "insert", "delete"]
    "read" payload [] (by decide) hcmd
  simp only [List.reverse_nil, List.nil_append] at h1
  simp [decodeCommand, dispatchCommand, h1]

theorem decodeCommand_update_rows (payload : Fields)
    (hcmd : keyAbsent "command" payload) (htype : keyAbsent "type" payload) :
    decodeCommand (.obj (("command", .str "update") ::
      ("type", .str "rows") :: payload)) =
      (decodeUpdateRowsFields payload none none).map Command.Update := by
  have hrest : keyAbsent "command" (("type", Json.str "rows") :: payload) :=
    keyAbsent_cons_of (by decide) hcmd
  have h1 := scanTag_head "command" ["create", "read", "update", "insert", "delete"]
    "update" (("type", Json.str "rows") :: payload) [] (by decide) hrest
  have h2 := scanTag_head "type" ["rows", "content"] "rows" payload [] (by decide) htype
  simp only [List.reverse_nil, List.nil_append] at h1 h2
  simp [decodeCommand, dispatchCommand, decodeUpdate, h1, h2]

theorem decodeCommand_update_content (payload : Fields)
    (hcmd : keyAbsent "command" payload) (htype : keyAbsent "type" payload) :
    decodeCommand (.obj (("command", .str "update") ::
      ("type", .str "content") :: payload)) =
      (decodeUpdateContentFields payload none none none).map Command.Update := by
  have hrest : keyAbsent "command" (("type", Json.str "content") :: payload) :=
    keyAbsent_cons_of (by decide) hcmd
  have h1 := scanTag_head "command" ["create", "read", "update", "insert", "delete"]
    "update" (("type", Json.str "content") :: payload) [] (by decide) hrest
  have h2 := scanTag_head "type" ["rows", "content"] "content" payload []
    (by decide) htype
  simp only [List.reverse_nil, List.nil_append] at h1 h2
  simp [decodeCommand, dispatchCommand, decodeUpdate, h1, h2]

theorem decodeCommand_insert_payload (payload : Fields)
    (hcmd : keyAbsent "command" payload) :
    decodeCommand (.obj (("command", .str "insert") :: payload)) =
      (decodeInsertFields payload none none).map Command.Insert := by
  have h1 := scanTag_head "command" ["create", "read", "update", "insert", "delete"]
    "insert" payload [] (by decide) hcmd
  simp only [List.reverse_nil, List.nil_append] at h1
  simp [decodeCommand, dispatchCommand, h1]

theorem decodeCommand_delete_table (payload : Fields)
    (hcmd : keyAbsent "command" payload) (htype : keyAbsent "type" payload) :
    decodeCommand (.obj (("command", .str "delete") ::
      ("type", .str "table") :: payload)) =
      (decodeDeleteTableFields payload none).map Command.Delete := by
  have hrest : keyAbsent "command" (("type", Json.str "table") :: payload) :=
    keyAbsent_cons_of (by decide) hcmd
  have h1 := scanTag_head "command" ["create", "read", "update", "insert", "delete"]
    "delete" (("type", Json.str "table") :: payload) [] (by decide) hrest
  have h2 := scanTag_head "type" ["table", "content"] "table" payload []
    (by decide) htype
  simp only [List.reverse_nil, List.nil_append] at h1 h2
  simp [decodeCommand, dispatchCommand, decodeDelete, h1, h2]
theorem decodeCommand_delete_content (payload : Fields)
    (hcmd : keyAbsent "command" payload) (htype : keyAbsent "type" payload) :
    decodeCommand (.obj (("command", .str "delete") ::
      ("type", .str "content") :: payload)) =
      (decodeDeleteContentFields payload none none).map Command.Delete := by
  have hrest : keyAbsent "command" (("type", Json.str "content") :: payload) :=
    keyAbsent_cons_of (by decide) hcmd
  have h1 := scanTag_head "command" ["create", "read", "update", "insert", "delete"]
    "delete" (("type", Json.str "content") :: payload) [] (by decide) hrest
  have h2 := scanTag_head "type" ["table", "content"] "content" payload []
    (by decide) htype
  simp only [List.reverse_nil, List.nil_append] at h1 h2
  simp [decodeCommand, dispatchCommand, decodeDelete, h1, h2]

theorem create_user_missing_field_no_ok (payload : Fields) (f : String)
    (hf : f ∈ ["username", "password", "role"])
    (hcmd : keyAbsent "command" payload) (htype : keyAbsent "type" payload)
    (habs : keyAbsent f payload) :
    ∀ c, decodeCommand (.obj (("command", .str "create") ::
      ("type", .str "user") :: payload)) ≠ .ok c := by
  intro c hc
  rw [decodeCommand_create_user payload hcmd htype] at hc
  cases hres : decodeUserFields payload none none none with
  | error e => rw [hres] at hc; simp [Except.map] at hc
  | ok c₀ =>
    have hreq := decodeUserFields_requires payload none none none c₀ hres
    simp only [List.mem_cons, List.not_mem_nil, or_false] at hf
    rcases hf with rfl | rfl | rfl
    · simpa using hreq.1 habs
    · simpa using hreq.2.1 habs
    · simpa using hreq.2.2 habs

theorem create_table_missing_field_no_ok (payload : Fields) (f : String)
    (hf : f ∈ ["table", "primary_key", "rows"])
    (hcmd : keyAbsent "command" payload) (htype : keyAbsent "type" payload)
    (habs : keyAbsent f payload) :
    ∀ c, decodeCommand (.obj (("command", .str "create") ::
      ("type", .str "table") :: payload)) ≠ .ok c := by
  intro c hc
  rw [decodeCommand_create_table payload hcmd htype] at hc
  cases hres : decodeTableFields payload none none none with
  | error e => rw [hres] at hc; simp [Except.map] at hc
  | ok c₀ =>
    have hreq := decodeTableFields_requires payload none none none c₀ hres
    simp only [List.mem_cons, List.not_mem_nil, or_false] at hf
    rcases hf with rfl | rfl | rfl
    · simpa using hreq.1 habs
    · simpa using hreq.2.1 habs
    · simpa using hreq.2.2 habs

theorem read_missing_field_no_ok (payload : Fields)
    (hcmd : keyAbsent "command" payload) (habs : keyAbsent "table" payload) :
    ∀ c, decodeCommand (.obj (("command", .str "read") :: payload)) ≠ .ok c := by
  intro c hc
  rw [decodeCommand_read_payload payload hcmd] at hc
  cases hres : decodeReadFields payload none none none with
  | error e => rw [hres] at hc; simp [Except.map] at hc
  | ok c₀ =>
    have hreq := decodeReadFields_requires payload none none none c₀ hres
    simpa using hreq habs

theorem update_rows_missing_field_no_ok (payload : Fields) (f : String)
    (hf : f ∈ ["table", "add"])
    (hcmd : keyAbsent "command" payload) (htype : keyAbsent "type" payload)
    (habs : keyAbsent f payload) :
    ∀ c, decodeCommand (.obj (("command", .str "update") ::
      ("type", .str "rows") :: payload)) ≠ .ok c := by
  intro c hc
  rw [decodeCommand_update_rows payload hcmd htype] at hc
  cases hres : decodeUpdateRowsFields payload none none with
  | error e => rw [hres] at hc; simp [Except.map] at hc
  | ok c₀ =>
    have hreq := decodeUpdateRowsFields_requires payload none none c₀ hres
    simp only [List.mem_cons, List.not_mem_nil, or_false] at hf
    rcases hf with rfl | rfl
    · simpa using hreq.1 habs
    · simpa using hreq.2 habs

theorem update_content_missing_field_no_ok (payload : Fields) (f : String)
    (hf : f ∈ ["table", "filter", "rows"])
    (hcmd : keyAbsent "command" payload) (htype : keyAbsent "type" payload)
    (habs : keyAbsent f payload) :
    ∀ c, decodeCommand (.obj (("command", .str "update") ::
      ("type", .str "content") :: payload)) ≠ .ok c := by
  intro c hc
  rw [decodeCommand_update_content payload hcmd htype] at hc
  cases hres : decodeUpdateContentFields payload none none none with
  | error e => rw [hres] at hc; simp [Except.map] at hc
  | ok c₀ =>
    have hreq := decodeUpdateContentFields_requires payload none none none c₀ hres
    simp only [List.mem_cons, List.not_mem_nil, or_false] at hf
    rcases hf with rfl | rfl | rfl
    · simpa using hreq.1 habs
    · simpa using hreq.2.1 habs
    · simpa using hreq.2.2 habs

theorem insert_missing_field_no_ok (payload : Fields) (f : String)
    (hf : f ∈ ["table", "rows"])
    (hcmd : keyAbsent "command" payload) (habs : keyAbsent f payload) :
    ∀ c, decodeCommand (.obj (("command", .str "insert") :: payload)) ≠ .ok c := by
  intro c hc
  rw [decodeCommand_insert_payload payload hcmd] at hc
  cases hres : decodeInsertFields payload none none with
  | error e => rw [hres] at hc; simp [Except.map] at hc
  | ok c₀ =>
    have hreq := decodeInsertFields_requires payload none none c₀ hres
    simp only [List.mem_cons, List.not_mem_nil, or_false] at hf
    rcases hf with rfl | rfl
    · simpa using hreq.1 habs
    · simpa using hreq.2 habs

theorem delete_table_missing_field_no_ok (payload : Fields)
    (hcmd : keyAbsent "command" payload) (htype : keyAbsent "type" payload)
    (habs : keyAbsent "table" payload) :
    ∀ c, decodeCommand (.obj (("command", .str "delete") ::
      ("type", .str "table") :: payload)) ≠ .ok c := by
  intro c hc
  rw [decodeCommand_delete_table payload hcmd htype] at hc
  cases hres : decodeDeleteTableFields payload none with
  | error e => rw [hres] at hc; simp [Except.map] at hc
  | ok c₀ =>
    have hreq := decodeDeleteTableFields_requires payload none c₀ hres
    simpa using hreq habs
theorem delete_content_missing_field_no_ok (payload : Fields) (f : String)
    (hf : f ∈ ["table", "filter"])
    (hcmd : keyAbsent "command" payload) (htype : keyAbsent "type" payload)
    (habs : keyAbsent f payload) :
    ∀ c, decodeCommand (.obj (("command", .str "delete") ::
      ("type", .str "content") :: payload)) ≠ .ok c := by
  intro c hc
  rw [decodeCommand_delete_content payload hcmd htype] at hc
  cases hres : decodeDeleteContentFields payload none none with
  | error e => rw [hres] at hc; simp [Except.map] at hc
  | ok c₀ =>
    have hreq := decodeDeleteContentFields_requires payload none none c₀ hres
    simp only [List.mem_cons, List.not_mem_nil, or_false] at hf
    rcases hf with rfl | rfl
    · simpa using hreq.1 habs
    · simpa using hreq.2 habs

theorem create_user_extra_key_ignored (pre post : Fields) (k : String) (v : Json)
    (hk : k ∉ ["command", "type", "username", "password", "role"])
    (hcpre : keyAbsent "command" pre) (hcpost : keyAbsent "command" post)
    (htpre : keyAbsent "type" pre) (htpost : keyAbsent "type" post) :
    decodeCommand (.obj (("command", .str "create") :: ("type", .str "user") ::
      (pre ++ (k, v) :: post))) =
      decodeCommand (.obj (("command", .str "create") :: ("type", .str "user") ::
      (pre ++ post))) := by
  simp only [List.mem_cons, List.not_mem_nil, or_false, not_or] at hk
  obtain ⟨hkc, hkt, hk1, hk2, hk3⟩ := hk
  rw [decodeCommand_create_user _ (keyAbsent_append hcpre (keyAbsent_cons_of hkc hcpost))
      (keyAbsent_append htpre (keyAbsent_cons_of hkt htpost)),
    decodeCommand_create_user _ (keyAbsent_append hcpre hcpost)
      (keyAbsent_append htpre htpost),
    decodeUserFields_skip pre k v post none none none hk1 hk2 hk3]

theorem create_table_extra_key_ignored (pre post : Fields) (k : String) (v : Json)
    (hk : k ∉ ["command", "type", "table", "primary_key", "rows"])
    (hcpre : keyAbsent "command" pre) (hcpost : keyAbsent "command" post)
    (htpre : keyAbsent "type" pre) (htpost : keyAbsent "type" post) :
    decodeCommand (.obj (("command", .str "create") :: ("type", .str "table") ::
      (pre ++ (k, v) :: post))) =
      decodeCommand (.obj (("command", .str "create") :: ("type", .str "table") ::
      (pre ++ post))) := by
  simp only [List.mem_cons, List.not_mem_nil, or_false, not_or] at hk
  obtain ⟨hkc, hkt, hk1, hk2, hk3⟩ := hk
  rw [decodeCommand_create_table _ (keyAbsent_append hcpre (keyAbsent_cons_of hkc hcpost))
      (keyAbsent_append htpre (keyAbsent_cons_of hkt htpost)),
    decodeCommand_create_table _ (keyAbsent_append hcpre hcpost)
      (keyAbsent_append htpre htpost),
    decodeTableFields_skip pre k v post none none none hk1 hk2 hk3]

theorem read_extra_key_ignored (pre post : Fields) (k : String) (v : Json)
    (hk : k ∉ ["command", "table", "filter", "limit"])
    (hcpre : keyAbsent "command" pre) (hcpost : keyAbsent "command" post) :
    decodeCommand (.obj (("command", .str "read") :: (pre ++ (k, v) :: post))) =
      decodeCommand (.obj (("command", .str "read") :: (pre ++ post))) := by
  simp only [List.mem_cons, List.not_mem_nil, or_false, not_or] at hk
  obtain ⟨hkc, hk1, hk2, hk3⟩ := hk
  rw [decodeCommand_read_payload _ (keyAbsent_append hcpre (keyAbsent_cons_of hkc hcpost)),
    decodeCommand_read_payload _ (keyAbsent_append hcpre hcpost),
    decodeReadFields_skip pre k v post none none none hk1 hk2 hk3]

theorem update_rows_extra_key_ignored (pre post : Fields) (k : String) (v : Json)
    (hk : k ∉ ["command", "type", "table", "add"])
    (hcpre : keyAbsent "command" pre) (hcpost : keyAbsent "command" post)
    (htpre : keyAbsent "type" pre) (htpost : keyAbsent "type" post) :
    decodeCommand (.obj (("command", .str "update") :: ("type", .str "rows") ::
      (pre ++ (k, v) :: post))) =
      decodeCommand (.obj (("command", .str "update") :: ("type", .str "rows") ::
      (pre ++ post))) := by
  simp only [List.mem_cons, List.not_mem_nil, or_false, not_or] at hk
  obtain ⟨hkc, hkt, hk1, hk2⟩ := hk
  rw [decodeCommand_update_rows _ (keyAbsent_append hcpre (keyAbsent_cons_of hkc hcpost))
      (keyAbsent_append htpre (keyAbsent_cons_of hkt htpost)),
    decodeCommand_update_rows _ (keyAbsent_append hcpre hcpost)
      (keyAbsent_append htpre htpost),
    decodeUpdateRowsFields_skip pre k v post none none hk1 hk2]

theorem update_content_extra_key_ignored (pre post : Fields) (k : String) (v : Json)
    (hk : k ∉ ["command", "type", "table", "filter", "rows"])
    (hcpre : keyAbsent "command" pre) (hcpost : keyAbsent "command" post)
    (htpre : keyAbsent "type" pre) (htpost : keyAbsent "type" post) :
    decodeCommand (.obj (("command", .str "update") :: ("type", .str "content") ::
      (pre ++ (k, v) :: post))) =
      decodeCommand (.obj (("command", .str "update") :: ("type", .str "content") ::
      (pre ++ post))) := by
  simp only [List.mem_cons, List.not_mem_nil, or_false, not_or] at hk
  obtain ⟨hkc, hkt, hk1, hk2, hk3⟩ := hk
  rw [decodeCommand_update_content _ (keyAbsent_append hcpre (keyAbsent_cons_of hkc hcpost))
      (keyAbsent_append htpre (keyAbsent_cons_of hkt htpost)),
    decodeCommand_update_content _ (keyAbsent_append hcpre hcpost)
      (keyAbsent_append htpre htpost),
    decodeUpdateContentFields_skip pre k v post none none none hk1 hk2 hk3]

theorem insert_extra_key_ignored (pre post : Fields) (k : String) (v : Json)
    (hk : k ∉ ["command", "table", "rows"])
    (hcpre : keyAbsent "command" pre) (hcpost : keyAbsent "command" post) :
    decodeCommand (.obj (("command", .str "insert") :: (pre ++ (k, v) :: post))) =
      decodeCommand (.obj (("command", .str "insert") :: (pre ++ post))) := by
  simp only [List.mem_cons, List.not_mem_nil, or_false, not_or] at hk
  obtain ⟨hkc, hk1, hk2⟩ := hk
  rw [decodeCommand_insert_payload _ (keyAbsent_append hcpre (keyAbsent_cons_of hkc hcpost)),
    decodeCommand_insert_payload _ (keyAbsent_append hcpre hcpost),
    decodeInsertFields_skip pre k v post none none hk1 hk2]

theorem delete_table_extra_key_ignored (pre post : Fields) (k : String) (v : Json)
    (hk : k ∉ ["command", "type", "table"])
    (hcpre : keyAbsent "command" pre) (hcpost : keyAbsent "command" post)
    (htpre : keyAbsent "type" pre) (htpost : keyAbsent "type" post) :
    decodeCommand (.obj (("command", .str "delete") :: ("type", .str "table") ::
      (pre ++ (k, v) :: post))) =
      decodeCommand (.obj (("command", .str "delete") :: ("type", .str "table") ::
      (pre ++ post))) := by
  simp only [List.mem_cons, List.not_mem_nil, or_false, not_or] at hk
  obtain ⟨hkc, hkt, hk1⟩ := hk
  rw [decodeCommand_delete_table _ (keyAbsent_append hcpre (keyAbsent_cons_of hkc hcpost))
      (keyAbsent_append htpre (keyAbsent_cons_of hkt htpost)),
    decodeCommand_delete_table _ (keyAbsent_append hcpre hcpost)
      (keyAbsent_append htpre htpost),
    decodeDeleteTableFields_skip pre k v post none hk1]
theorem delete_content_extra_key_ignored (pre post : Fields) (k : String) (v : Json)
    (hk : k ∉ ["command", "type", "table", "filter"])
    (hcpre : keyAbsent "command" pre) (hcpost : keyAbsent "command" post)
    (htpre : keyAbsent "type" pre) (htpost : keyAbsent "type" post) :
    decodeCommand (.obj (("command", .str "delete") :: ("type", .str "content") ::
      (pre ++ (k, v) :: post))) =
      decodeCommand (.obj (("command", .str "delete") :: ("type", .str "content") ::
      (pre ++ post))) := by
  simp only [List.mem_cons, List.not_mem_nil, or_false, not_or] at hk
  obtain ⟨hkc, hkt, hk1, hk2⟩ := hk
  rw [decodeCommand_delete_content _ (keyAbsent_append hcpre (keyAbsent_cons_of hkc hcpost))
      (keyAbsent_append htpre (keyAbsent_cons_of hkt htpost)),
    decodeCommand_delete_content _ (keyAbsent_append hcpre hcpost)
      (keyAbsent_append htpre htpost),
    decodeDeleteContentFields_skip pre k v post none none hk1 hk2]

/-! ## The claims -/

/-- C1: a message whose `command` field is a string other than the
five recognized literals is rejected with an unknown-variant error for
that value, regardless of the rest of the payload, so no `Command`
with an unknown variant is ever produced. -/
theorem C1_unknown_command_is_decode_error (pre post : Fields) (s : String)
    (hpre : ∀ p ∈ pre, p.1 ≠ "command")
    (hs : s ∉ ["create", "read", "update", "insert", "delete"]) :
    decodeCommand (.obj (pre ++ ("command", .str s) :: post)) =
      .error (.unknownVariant "command" s) := by
  have h := scanTag_unknown "command"
    ["create", "read", "update", "insert", "delete"] pre post s [] hpre hs
  simp [decodeCommand, h]

/-- Witness for C1 at the spec's example discriminant `truncate`. -/
theorem C1_witness :
    decodeCommand (.obj [("extra", .null), ("command", .str "truncate"),
      ("table", .str "x")]) = .error (.unknownVariant "command" "truncate") :=
  C1_unknown_command_is_decode_error [("extra", Json.null)]
    [("table", Json.str "x")] "truncate" (by decide) (by decide)

/-- C2: a minimal read message defaults `filter` to the empty mapping
and `limit` to absent; supplying both yields the given filter entry
and `limit = 5`. -/
theorem C2_read_defaulting :
    decodeCommand (.obj [("command", .str "read"), ("table", .str "products")]) =
      .ok (.Read ⟨"products", [], none⟩) ∧
    decodeCommand (.obj [("command", .str "read"), ("table", .str "products"),
      ("filter", .obj [("price", .str "20")]), ("limit", .num 5)]) =
      .ok (.Read ⟨"products", [("price", .str "20")], some 5⟩) :=
  ⟨rfl, rfl⟩

/-- C3: the `type` discriminant alone selects the update sub-variant:
`rows` yields the `Rows` sub-variant with `col_type = "string"` for
`category`, and `content` yields the `Content` sub-variant with the
filter expression string and `rows` mapping `price` to 2.30. -/
theorem C3_update_subvariant_dispatch :
    decodeCommand (.obj [("command", .str "update"), ("type", .str "rows"),
      ("table", .str "products"),
      ("add", .obj [("category", .obj [("type", .str "string")])])]) =
      .ok (.Update (.Rows "products"
        [("category", ⟨"string", false, false, none⟩)])) ∧
    decodeCommand (.obj [("command", .str "update"), ("type", .str "content"),
      ("table", .str "products"), ("filter", .str "id = 1"),
      ("rows", .obj [("price", .num (23 / 10))])]) =
      .ok (.Update (.Content "products" "id = 1"
        [("price", .num (23 / 10))])) :=
  ⟨rfl, rfl⟩

/-- C4: a message that selects a (sub-)variant but omits one of that
variant's required fields never decodes to a `Command`: for each of
the eight (sub-)variants and each of its required fields, any payload
lacking that field key fails; the spec's example insert message fails
with a missing-field error for `rows`. -/
theorem C4_missing_required_field_rejected :
    (decodeCommand (.obj [("command", .str "insert"), ("table", .str "products")]) =
      .error (.missingField "rows")) ∧
    (∀ (payload : Fields) (f : String), f ∈ ["username", "password", "role"] →
      keyAbsent "command" payload → keyAbsent "type" payload → keyAbsent f payload →
      ∀ c, decodeCommand (.obj (("command", .str "create") ::
        ("type", .str "user") :: payload)) ≠ .ok c) ∧
    (∀ (payload : Fields) (f : String), f ∈ ["table", "primary_key", "rows"] →
      keyAbsent "command" payload → keyAbsent "type" payload → keyAbsent f payload →
      ∀ c, decodeCommand (.obj (("command", .str "create") ::
        ("type", .str "table") :: payload)) ≠ .ok c) ∧
    (∀ (payload : Fields),
      keyAbsent "command" payload → keyAbsent "table" payload →
      ∀ c, decodeCommand (.obj (("command", .str "read") :: payload)) ≠ .ok c) ∧
    (∀ (payload : Fields) (f : String), f ∈ ["table", "add"] →
      keyAbsent "command" payload → keyAbsent "type" payload → keyAbsent f payload →
      ∀ c, decodeCommand (.obj (("command", .str "update") ::
        ("type", .str "rows") :: payload)) ≠ .ok c) ∧
    (∀ (payload : Fields) (f : String), f ∈ ["table", "filter", "rows"] →
      keyAbsent "command" payload → keyAbsent "type" payload → keyAbsent f payload →
      ∀ c, decodeCommand (.obj (("command", .str "update") ::
        ("type", .str "content") :: payload)) ≠ .ok c) ∧
    (∀ (payload : Fields) (f : String), f ∈ ["table", "rows"] →
      keyAbsent "command" payload → keyAbsent f payload →
      ∀ c, decodeCommand (.obj (("command", .str "insert") :: payload)) ≠ .ok c) ∧
    (∀ (payload : Fields),
      keyAbsent "command" payload → keyAbsent "type" payload →
      keyAbsent "table" payload →
      ∀ c, decodeCommand (.obj (("command", .str "delete") ::
        ("type", .str "table") :: payload)) ≠ .ok c) ∧
    (∀ (payload : Fields) (f : String), f ∈ ["table", "filter"] →
      keyAbsent "command" payload → keyAbsent "type" payload → keyAbsent f payload →
      ∀ c, decodeCommand (.obj (("command", .str "delete") ::
        ("type", .str "content") :: payload)) ≠ .ok c) :=
  ⟨rfl,
   fun payload f hf => create_user_missing_field_no_ok payload f hf,
   fun payload f hf => create_table_missing_field_no_ok payload f hf,
   read_missing_field_no_ok,
   fun payload f hf => update_rows_missing_field_no_ok payload f hf,
   fun payload f hf => update_content_missing_field_no_ok payload f hf,
   fun payload f hf => insert_missing_field_no_ok payload f hf,
   delete_table_missing_field_no_ok,
   fun payload f hf => delete_content_missing_field_no_ok payload f hf⟩

/-- Witness for C4: a create-user message without `role` never
decodes. -/
theorem C4_witness :
    decodeCommand (.obj [("command", .str "create"), ("type", .str "user"),
      ("username", .str "zkko"), ("password", .str "pwd")]) ≠
      .ok (.Create (.User "zkko" "pwd" "admin")) :=
  C4_missing_required_field_rejected.2.1 [("username", Json.str "zkko"), ("password", Json.str "pwd")] "role"
    (by decide) (by decide) (by decide) (by decide) (.Create (.User "zkko" "pwd" "admin"))

/-- C5 counterexample: a `rows` mapping containing the key `a` twice
decodes successfully with the later value, so no duplicate-key error
is raised and last-write-wins is exactly what the code produces. -/
theorem C5_duplicate_key_counterexample :
    decodeCommand (.obj [("command", .str "insert"), ("table", .str "t"),
      ("rows", .obj [("a", .num 1), ("a", .num 2)])]) =
      .ok (.Insert ⟨"t", [("a", .num 2)]⟩) :=
  rfl

/-- C5 amended: a duplicated key in a mapping-valued field is accepted
silently and the later value overwrites the earlier one. -/
theorem C5_duplicate_key_last_write_wins (t k : String) (v₁ v₂ : Json) :
    decodeCommand (.obj [("command", .str "insert"), ("table", .str t),
      ("rows", .obj [(k, v₁), (k, v₂)])]) = .ok (.Insert ⟨t, [(k, v₂)]⟩) := by
  simp [decodeCommand, scanTag, variantOfTag, dispatchCommand, decodeInsertFields,
    decodeValueMap, buildMap, insertAssoc, Except.map]

/-- C6: a create-table message whose `rows` mapping contains one
malformed `ColumnDefinition` entry never decodes to a `Command`: the
malformed entry aborts the whole decode instead of being skipped. -/
theorem C6_malformed_column_aborts_decode (entries : Fields) (k : String)
    (v : Json) (e : DecodeError) (hmem : (k, v) ∈ entries)
    (hbad : decodeColumnDef v = .error e) :
    ∀ c, decodeCommand (.obj [("command", .str "create"), ("type", .str "table"),
      ("table", .str "t"), ("primary_key", .str "id"),
      ("rows", .obj entries)]) ≠ .ok c := by
  intro c hc
  have hno := decodeColumnMap_no_ok entries [] k v e hmem hbad
  cases hcm : decodeColumnMap entries [] with
  | ok m => exact hno m hcm
  | error e₀ =>
    simp [decodeCommand, scanTag, variantOfTag, dispatchCommand, decodeCreate,
      decodeTableFields, Except.map, hcm] at hc

/-- Witness for C6: a column definition missing its required `type`
tag aborts the create-table decode. -/
theorem C6_witness :
    decodeCommand (.obj [("command", .str "create"), ("type", .str "table"),
      ("table", .str "t"), ("primary_key", .str "id"),
      ("rows", .obj [("bad", .obj [])])]) ≠
      .ok (.Create (.Table "t" "id" [])) :=
  C6_malformed_column_aborts_decode [("bad", Json.obj [])] "bad" (Json.obj [])
    (.missingField "type") (by simp) rfl (.Create (.Table "t" "id" []))

/-- C7 counterexample: a read message carrying `Limit` (miscased field
name) still decodes successfully, so a message whose field name
differs only in case from a declared wire key need not fail. -/
theorem C7_miscased_field_counterexample :
    decodeCommand (.obj [("command", .str "read"), ("table", .str "products"),
      ("Limit", .num 5)]) = .ok (.Read ⟨"products", [], none⟩) :=
  rfl

/-- C7 amended: discriminant values are matched case-sensitively (a
miscased `command` or `type` value fails with an unknown-variant
error); field names are matched case-sensitively too, but a miscased
field name is merely ignored as an unknown key, so decoding fails only
when a required field thereby goes missing, while a miscased optional
field leaves its default in place and decoding succeeds. -/
theorem C7_case_sensitivity :
    decodeCommand (.obj [("command", .str "Create"), ("type", .str "user")]) =
      .error (.unknownVariant "command" "Create") ∧
    decodeCommand (.obj [("command", .str "READ"), ("table", .str "products")]) =
      .error (.unknownVariant "command" "READ") ∧
    decodeCommand (.obj [("command", .str "update"), ("type", .str "Rows"),
      ("table", .str "products"), ("add", .obj [])]) =
      .error (.unknownVariant "type" "Rows") ∧
    decodeCommand (.obj [("command", .str "read"), ("Table", .str "products")]) =
      .error (.missingField "table") ∧
    decodeCommand (.obj [("command", .str "read"), ("table", .str "products"),
      ("Limit", .num 5)]) = .ok (.Read ⟨"products", [], none⟩) :=
  ⟨rfl, rfl, rfl, rfl, rfl⟩

/-- C8 counterexample: `limit: 0` decodes successfully to
`limit = some 0`, so a decoded `ReadCommand` may carry a limit that is
not greater than zero. -/
theorem C8_zero_limit_counterexample :
    decodeCommand (.obj [("command", .str "read"), ("table", .str "p"),
      ("limit", .num 0)]) = .ok (.Read ⟨"p", [], some 0⟩) :=
  rfl

/-- C8 amended: `limit` must be a non-negative integer — a negative or
fractional numeric value fails to decode — and zero is accepted,
yielding `limit = some 0`. -/
theorem C8_limit_nonnegative_integer (q : ℚ) (h : q.num < 0 ∨ q.den ≠ 1) :
    decodeCommand (.obj [("command", .str "read"), ("table", .str "p"),
      ("limit", .num q)]) = .error (.typeMismatch "limit") ∧
    decodeCommand (.obj [("command", .str "read"), ("table", .str "p"),
      ("limit", .num 0)]) = .ok (.Read ⟨"p", [], some 0⟩) := by
  refine ⟨?_, rfl⟩
  have hcond : ¬(q.den = 1 ∧ 0 ≤ q ∧ q.num < 18446744073709551616) := by
    rcases h with h | h
    · rintro ⟨_, h2, _⟩
      have h3 : 0 ≤ q.num := Rat.num_nonneg.mpr h2
      omega
    · rintro ⟨h1, _, _⟩
      exact h h1
  simp [decodeCommand, scanTag, variantOfTag, dispatchCommand, decodeReadFields,
    decodeLimit, Except.map, hcond]

/-- Witness for the amended C8 at `limit = -1`. -/
theorem C8_witness :
    decodeCommand (.obj [("command", .str "read"), ("table", .str "p"),
      ("limit", .num (-1))]) = .error (.typeMismatch "limit") :=
  (C8_limit_nonnegative_integer (-1) (by decide)).1

/-- C9: decoding is deterministic — two successful decodes of the same
message agree on the resulting `Command`, mapping contents included. -/
theorem C9_decode_deterministic (j : Json) (c₁ c₂ : Command)
    (h₁ : decodeCommand j = .ok c₁) (h₂ : decodeCommand j = .ok c₂) :
    c₁ = c₂ := by
  rw [h₁] at h₂
  injection h₂

/-- Witness for C9 at a minimal read message. -/
theorem C9_witness :
    (Command.Read ⟨"x", [], none⟩) = (Command.Read ⟨"x", [], none⟩) :=
  C9_decode_deterministic (.obj [("command", .str "read"), ("table", .str "x")])
    (.Read ⟨"x", [], none⟩) (.Read ⟨"x", [], none⟩) rfl rfl

/-- C10: unknown extra fields are silently ignored for every
(sub-)variant: the insert message with a stray `filter` key decodes
successfully and equals the decode without it, and in general
inserting an unrecognized key anywhere into the payload of any of the
eight (sub-)variants leaves the decode result unchanged. -/
theorem C10_unknown_fields_ignored :
    (decodeCommand (.obj [("command", .str "insert"), ("table", .str "products"),
      ("rows", .obj [("id", .num 1)]), ("filter", .str "stray")]) =
      .ok (.Insert ⟨"products", [("id", .num 1)]⟩)) ∧
    (decodeCommand (.obj [("command", .str "insert"), ("table", .str "products"),
      ("rows", .obj [("id", .num 1)]), ("filter", .str "stray")]) =
      decodeCommand (.obj [("command", .str "insert"), ("table", .str "products"),
        ("rows", .obj [("id", .num 1)])])) ∧
    (∀ (pre post : Fields) (k : String) (v : Json),
      k ∉ ["command", "type", "username", "password", "role"] →
      keyAbsent "command" pre → keyAbsent "command" post →
      keyAbsent "type" pre → keyAbsent "type" post →
      decodeCommand (.obj (("command", .str "create") :: ("type", .str "user") ::
        (pre ++ (k, v) :: post))) =
        decodeCommand (.obj (("command", .str "create") :: ("type", .str "user") ::
        (pre ++ post)))) ∧
    (∀ (pre post : Fields) (k : String) (v : Json),
      k ∉ ["command", "type", "table", "primary_key", "rows"] →
      keyAbsent "command" pre → keyAbsent "command" post →
      keyAbsent "type" pre → keyAbsent "type" post →
      decodeCommand (.obj (("command", .str "create") :: ("type", .str "table") ::
        (pre ++ (k, v) :: post))) =
        decodeCommand (.obj (("command", .str "create") :: ("type", .str "table") ::
        (pre ++ post)))) ∧
    (∀ (pre post : Fields) (k : String) (v : Json),
      k ∉ ["command", "table", "filter", "limit"] →
      keyAbsent "command" pre → keyAbsent "command" post →
      decodeCommand (.obj (("command", .str "read") :: (pre ++ (k, v) :: post))) =
        decodeCommand (.obj (("command", .str "read") :: (pre ++ post)))) ∧
    (∀ (pre post : Fields) (k : String) (v : Json),
      k ∉ ["command", "type", "table", "add"] →
      keyAbsent "command" pre → keyAbsent "command" post →
      keyAbsent "type" pre → keyAbsent "type" post →
      decodeCommand (.obj (("command", .str "update") :: ("type", .str "rows") ::
        (pre ++ (k, v) :: post))) =
        decodeCommand (.obj (("command", .str "update") :: ("type", .str "rows") ::
        (pre ++ post)))) ∧
    (∀ (pre post : Fields) (k : String) (v : Json),
      k ∉ ["command", "type", "table", "filter", "rows"] →
      keyAbsent "command" pre → keyAbsent "command" post →
      keyAbsent "type" pre → keyAbsent "type" post →
      decodeCommand (.obj (("command", .str "update") :: ("type", .str "content") ::
        (pre ++ (k, v) :: post))) =
        decodeCommand (.obj (("command", .str "update") :: ("type", .str "content") ::
        (pre ++ post)))) ∧
    (∀ (pre post : Fields) (k : String) (v : Json),
      k ∉ ["command", "table", "rows"] →
      keyAbsent "command" pre → keyAbsent "command" post →
      decodeCommand (.obj (("command", .str "insert") :: (pre ++ (k, v) :: post))) =
        decodeCommand (.obj (("command", .str "insert") :: (pre ++ post)))) ∧
    (∀ (pre post : Fields) (k : String) (v : Json),
      k ∉ ["command", "type", "table"] →
      keyAbsent "command" pre → keyAbsent "command" post →
      keyAbsent "type" pre → keyAbsent "type" post →
      decodeCommand (.obj (("command", .str "delete") :: ("type", .str "table") ::
        (pre ++ (k, v) :: post))) =
        decodeCommand (.obj (("command", .str "delete") :: ("type", .str "table") ::
        (pre ++ post)))) ∧
    (∀ (pre post : Fields) (k : String) (v : Json),
      k ∉ ["command", "type", "table", "filter"] →
      keyAbsent "command" pre → keyAbsent "command" post →
      keyAbsent "type" pre → keyAbsent "type" post →
      decodeCommand (.obj (("command", .str "delete") :: ("type", .str "content") ::
        (pre ++ (k, v) :: post))) =
        decodeCommand (.obj (("command", .str "delete") :: ("type", .str "content") ::
        (pre ++ post)))) :=
  ⟨rfl, rfl,
   create_user_extra_key_ignored,
   create_table_extra_key_ignored,
   read_extra_key_ignored,
   update_rows_extra_key_ignored,
   update_content_extra_key_ignored,
   insert_extra_key_ignored,
   delete_table_extra_key_ignored,
   delete_content_extra_key_ignored⟩

/-- Witness for C10: a stray `extra` key on a delete-table message
changes nothing. -/
theorem C10_witness :
    decodeCommand (.obj [("command", .str "delete"), ("type", .str "table"),
      ("table", .str "products"), ("extra", .null)]) =
      decodeCommand (.obj [("command", .str "delete"), ("type", .str "table"),
        ("table", .str "products")]) :=
  C10_unknown_fields_ignored.2.2.2.2.2.2.2.2.1 [("table", Json.str "products")] [] "extra" Json.null
    (by decide) (by decide) (by decide) (by decide) (by decide)

end Zkkodb
